import Mathlib

/-!
# Verification of the EFTSuite EFT codec against its specification

Shallow embedding of the EFT serializer/parser of
`WebApp/services/eft_helper.py`, `WebApp/services/eft_parser.py` and
`WebApp/services/eft_generator.py`.

Modelling conventions:
* Python `bytes`/`bytearray` values are `List Nat` (one entry per byte).
* Python `str` values are also `List Nat`, the list of code points.  All
  strings handled by the codec are ASCII, for which the `'ascii'` codec is
  the identity on code points; on a non-ASCII string Python's
  `bytearray(s, 'ascii')` raises, i.e. serialization fails, which is outside
  the scope of the claims (they quantify over records whose serialization
  succeeds).
* Python `int` values are `Int`; `str(n)` is decimal rendering.
* A Python dict is an association list in insertion order; `sorted` (a
  stable sort by key) is modelled by `List.insertionSort`, which is stable.
* `int(s)` is modelled for the forms that occur in EFT data: an optional
  sign followed by decimal digits (Python additionally strips whitespace
  and allows `_` group separators; no EFT field uses those forms).
-/

set_option linter.unusedSectionVars false

namespace EFT

/-! ## Separator bytes (eft_helper.py lines 5-8) -/

def fsB : Nat := 0x1C
def gsB : Nat := 0x1D
def rsB : Nat := 0x1E
def usB : Nat := 0x1F
def colonB : Nat := 58
def dotB : Nat := 46
def commaB : Nat := 44

/-- Code points of a Lean string literal, used to write ASCII text constants
from the source as byte lists. -/
def str2b (s : String) : List Nat := s.data.map Char.toNat

/-! ## Decimal rendering, modelling Python `str` on integers -/

/-- Little-endian base-10 digits, with fuel to keep the recursion
structural (so that concrete witnesses evaluate by `decide`/`rfl`). -/
def digitsGo : Nat → Nat → List Nat
  | 0, _ => []
  | _ + 1, 0 => []
  | fuel + 1, n => n % 10 :: digitsGo fuel (n / 10)

/-- `str(n)` for a natural number: its decimal digit characters. -/
def natStrB (n : Nat) : List Nat :=
  if n = 0 then [48] else (digitsGo n n).reverse.map (fun d => 48 + d)

/-- `str(i)` for a Python int: a `-` sign followed by the decimal digits
when negative. -/
def intStrB : Int → List Nat
  | .ofNat n => natStrB n
  | .negSucc n => 45 :: natStrB (n + 1)

theorem digitsGo_eq_digits (fuel : Nat) : ∀ n : Nat, n ≤ fuel →
    digitsGo fuel n = Nat.digits 10 n := by
  induction fuel with
  | zero =>
    intro n h
    interval_cases n
    simp [digitsGo]
  | succ f ih =>
    intro n h
    cases n with
    | zero => simp [digitsGo]
    | succ m =>
      have h1 : (m + 1) / 10 < m + 1 := Nat.div_lt_self (Nat.succ_pos m) (by norm_num)
      rw [digitsGo, Nat.digits_def' (by norm_num : (1:Nat) < 10) (Nat.succ_pos m),
        ih ((m + 1) / 10) (by omega)]
      omega

/-- Number of characters of `str(n)`. -/
def dLen (n : Nat) : Nat := (natStrB n).length

theorem dLen_eq (n : Nat) : dLen n = if n = 0 then 1 else Nat.log 10 n + 1 := by
  unfold dLen natStrB
  by_cases h : n = 0
  · simp [h]
  · simp only [h, if_false]
    rw [digitsGo_eq_digits n n le_rfl]
    simp [Nat.digits_len 10 n (by norm_num) h]

theorem one_le_dLen (n : Nat) : 1 ≤ dLen n := by
  rw [dLen_eq]; split <;> omega

theorem lt_pow_dLen (n : Nat) : n < 10 ^ dLen n := by
  rw [dLen_eq]
  by_cases h : n = 0
  · simp [h]
  · simpa [h] using Nat.lt_pow_succ_log_self (by norm_num : 1 < 10) n

theorem pow_pred_dLen_le (n : Nat) (h : n ≠ 0) : 10 ^ (dLen n - 1) ≤ n := by
  rw [dLen_eq]
  simpa [h] using Nat.pow_log_le_self 10 h

theorem dLen_mono {m n : Nat} (h : m ≤ n) : dLen m ≤ dLen n := by
  rw [dLen_eq, dLen_eq]
  by_cases hm : m = 0
  · by_cases hn : n = 0 <;> simp [hm, hn]
  · have hn : n ≠ 0 := by omega
    simp only [hm, hn, if_false]
    exact Nat.succ_le_succ (Nat.log_mono_right h)

theorem dLen_le_of_lt_pow {n k : Nat} (hk : 1 ≤ k) (h : n < 10 ^ k) : dLen n ≤ k := by
  by_contra hc
  push_neg at hc
  have hn : n ≠ 0 := by
    intro h0
    rw [h0, dLen_eq] at hc
    simp at hc
    omega
  have h1 : 10 ^ k ≤ 10 ^ (dLen n - 1) := Nat.pow_le_pow_right (by norm_num) (by omega)
  have h2 := pow_pred_dLen_le n hn
  omega

theorem dLen_ge_of_pow_le {n k : Nat} (h : 10 ^ k ≤ n) : k + 1 ≤ dLen n := by
  by_contra hc
  push_neg at hc
  have h1 : 10 ^ dLen n ≤ 10 ^ k := Nat.pow_le_pow_right (by norm_num) (by omega)
  have h2 := lt_pow_dLen n
  omega

/-! ## Python values appearing in field dictionaries -/

/-- The values a record's field dict maps tags to: `str` (ASCII code
points), `int`, or `bytes` (image payloads). -/
inductive PyVal where
  | str (s : List Nat)
  | int (i : Int)
  | bytes (b : List Nat)
deriving DecidableEq

/-- Python `str(v)`.  For `bytes` values Python yields the `repr` text
`b'...'`; no claim inspects that text (it is only ever tested for
non-emptiness, see `keepVal`), so it is modelled by a fixed non-empty
placeholder. -/
def valText : PyVal → List Nat
  | .str s => s
  | .int i => intStrB i
  | .bytes _ => str2b "b''"

/-- The bytes `join_dict` writes for a value (eft_helper.py lines 58-63):
`bytes` verbatim, anything else `str()`-converted then ASCII-encoded
(identity on code points for ASCII text). -/
def valBytes : PyVal → List Nat
  | .bytes b => b
  | v => valText v

/-- `Type2._clean_dict` keeps a value iff it is not `None` and
`len(str(value)) > 0` (eft_helper.py lines 253-259).  `str` of an int or of
a bytes object is never empty. -/
def keepVal : PyVal → Bool
  | .str s => s ≠ []
  | .int _ => true
  | .bytes _ => true

/-! ## Python `int()` parsing -/

def digitVal? (b : Nat) : Option Nat :=
  if 48 ≤ b ∧ b ≤ 57 then some (b - 48) else none

def pyNatGo : Option Nat → List Nat → Option Nat
  | acc, [] => acc
  | acc, b :: rest =>
    match acc, digitVal? b with
    | some a, some d => pyNatGo (some (a * 10 + d)) rest
    | _, _ => none

/-- Unsigned decimal parse: all characters digits, at least one. -/
def pyNatParse? (l : List Nat) : Option Nat :=
  match l with
  | [] => none
  | _ => pyNatGo (some 0) l

/-- `int(s)`: optional sign then digits (see module comment). -/
def pyIntParse? : List Nat → Option Int
  | 45 :: rest => (pyNatParse? rest).map (fun n => -(n : Int))
  | 43 :: rest => (pyNatParse? rest).map (fun n => (n : Int))
  | l => (pyNatParse? l).map (fun n => (n : Int))

/-- `int(v)` on a PyVal, as used by `Record.__cnt__` (eft_helper.py lines
110-115): a failed conversion (non-numeric text, or a bytes object, which
raises `TypeError`) is caught and replaced by 0. -/
def pyIntOf : PyVal → Int
  | .int i => i
  | .str s => (pyIntParse? s).getD 0
  | .bytes _ => 0

/-! ## `join_dict`, the tagged-field serializer (eft_helper.py lines 20-70) -/

/-- Python `str.split(sep)` for a single-character separator, on code
points. -/
def splitOnB (sep : Nat) : List Nat → List (List Nat)
  | [] => [[]]
  | c :: rest =>
    if c = sep then [] :: splitOnB sep rest
    else
      match splitOnB sep rest with
      | [] => [[c]]
      | g :: gs => (c :: g) :: gs

/-- The sort key of `join_dict` (eft_helper.py lines 36-41): split the tag
at `.`, convert the first two parts with `int`; any failure (no `.`, or a
non-numeric part) falls back to `(99, 99)`. -/
def sortKey (k : List Nat) : Int × Int :=
  match splitOnB dotB k with
  | p0 :: p1 :: _ =>
    match pyIntParse? p0, pyIntParse? p1 with
    | some a, some b => (a, b)
    | _, _ => (99, 99)
  | _ => (99, 99)

/-- Lexicographic comparison of sort keys, as Python compares int pairs. -/
def keyLe (a b : Int × Int) : Prop := a.1 < b.1 ∨ (a.1 = b.1 ∧ a.2 ≤ b.2)

instance : DecidableRel keyLe := fun a b => by unfold keyLe; infer_instance

def keyLt (a b : Int × Int) : Prop := a.1 < b.1 ∨ (a.1 = b.1 ∧ a.2 < b.2)

instance : DecidableRel keyLt := fun a b => by unfold keyLt; infer_instance

/-- Ordering of dict entries by the sort key of their tag. -/
def entryLe (e₁ e₂ : List Nat × PyVal) : Prop := keyLe (sortKey e₁.1) (sortKey e₂.1)

instance : DecidableRel entryLe := fun a b => by unfold entryLe; infer_instance

instance : IsTotal (List Nat × PyVal) entryLe where
  total a b := by unfold entryLe keyLe; omega

instance : IsTrans (List Nat × PyVal) entryLe where
  trans a b c hab hbc := by
    unfold entryLe keyLe at *
    omega

/-- `KEY:VALUE` for one field. -/
def entryBytes (k : List Nat) (v : PyVal) : List Nat := k ++ [colonB] ++ valBytes v

/-- The emission loop of `join_dict` (eft_helper.py lines 46-68): each
entry followed by `GS`, except the last which is followed by `FS`. -/
def emitEntries : List (List Nat × PyVal) → List Nat
  | [] => []
  | [(k, v)] => entryBytes k v ++ [fsB]
  | (k, v) :: rest => entryBytes k v ++ [gsB] ++ emitEntries rest

/-- `join_dict(d)`: sort the entries by tag sort key (Python's `sorted` is
a stable sort; on an association list with the values carried along it is
`insertionSort`) and emit them. -/
def joinDict (d : List (List Nat × PyVal)) : List Nat :=
  emitEntries (List.insertionSort entryLe d)

/-- Total serialized size: each entry contributes `KEY:VALUE` plus one
separator byte. -/
def entriesSize (d : List (List Nat × PyVal)) : Nat :=
  (d.map (fun e => (entryBytes e.1 e.2).length + 1)).sum

theorem emitEntries_length (d : List (List Nat × PyVal)) :
    (emitEntries d).length = entriesSize d := by
  induction d with
  | nil => simp [emitEntries, entriesSize]
  | cons e rest ih =>
    cases rest with
    | nil => simp [emitEntries, entriesSize]
    | cons e' rest' =>
      obtain ⟨k, v⟩ := e
      simp only [emitEntries, entriesSize, List.map_cons, List.sum_cons] at ih ⊢
      simp [ih, entriesSize]
      omega

theorem joinDict_length (d : List (List Nat × PyVal)) :
    (joinDict d).length = entriesSize d := by
  rw [joinDict, emitEntries_length]
  exact ((List.perm_insertionSort entryLe d).map _).sum_eq

/-! ## The length solver (eft_helper.py lines 89-100) -/

/-- Serialized size of a record's dict when its length field holds `l`. -/
def lenOfAt (getDict : PyVal → List (List Nat × PyVal)) (l : PyVal) : Nat :=
  (joinDict (getDict l)).length

/-- The fixed-point loop body of `Record._get_len`: up to `fuel` rounds,
serialize with the current length value, stop when `str(curr_size) ==
str(self.len)`, else continue from `curr_size`. -/
def getLenGo (getDict : PyVal → List (List Nat × PyVal)) : Nat → PyVal → PyVal
  | 0, l => l
  | fuel + 1, l =>
    let curr := lenOfAt getDict l
    if natStrB curr = valText l then l else getLenGo getDict fuel (.int curr)

/-- `Record._get_len`: initial guess `"1"`, at most 5 rounds. -/
def getLen (getDict : PyVal → List (List Nat × PyVal)) : PyVal :=
  getLenGo getDict 5 (.str (str2b "1"))

/-- `Record.repr`: recompute the length, then serialize. -/
def reprTagged (getDict : PyVal → List (List Nat × PyVal)) : List Nat :=
  joinDict (getDict (getLen getDict))

/-- The length value `l` is a fixed point: serializing with it yields
exactly `str(l)` bytes (the loop's break condition). -/
def Stabilized (getDict : PyVal → List (List Nat × PyVal)) (l : PyVal) : Prop :=
  natStrB (lenOfAt getDict l) = valText l

/-- A record dict whose serialized size is an affine function of the
character count of the length value: `base` bytes plus the digits of the
length field itself.  Every record type of the source has this shape. -/
def LinearLen (getDict : PyVal → List (List Nat × PyVal)) (base : Nat) : Prop :=
  lenOfAt getDict (.str (str2b "1")) = base + 1 ∧
  ∀ c : Nat, lenOfAt getDict (.int c) = base + dLen c

theorem valText_int_natCast (c : Nat) : valText (.int (c : Int)) = natStrB c := rfl

theorem getLenGo_succ (getDict : PyVal → List (List Nat × PyVal)) (n : Nat) (l : PyVal) :
    getLenGo getDict (n + 1) l =
      if natStrB (lenOfAt getDict l) = valText l then l
      else getLenGo getDict n (.int (lenOfAt getDict l)) := rfl

/-- `dLen n < 10 ^ dLen n`, a convenience bound. -/
theorem dLen_lt_pow_self (n : Nat) : dLen n < 10 ^ dLen n :=
  Nat.lt_pow_self (by norm_num) (dLen n)

/-- Core solver theorem: for a record of affine serialized size the
iteration of `_get_len` reaches its fixed point within the 5-round cap
(in fact within 4 rounds, as §4.3 of the spec asserts). -/
theorem getLen_stabilized (getDict : PyVal → List (List Nat × PyVal)) (base : Nat)
    (h : LinearLen getDict base) : Stabilized getDict (getLen getDict) := by
  obtain ⟨h1, hc⟩ := h
  unfold getLen
  set l0 : PyVal := .str (str2b "1") with hl0
  -- round 1: size with the textual guess "1"
  rw [getLenGo_succ, h1]
  by_cases e1 : natStrB (base + 1) = valText l0
  · rw [if_pos e1]
    unfold Stabilized
    rw [h1]
    exact e1
  · rw [if_neg e1]
    set c1 : Nat := base + 1 with hc1
    -- round 2: size with the first numeric length
    rw [getLenGo_succ, hc, valText_int_natCast]
    by_cases e2 : natStrB (base + dLen c1) = natStrB c1
    · rw [if_pos e2]
      unfold Stabilized
      rw [hc, valText_int_natCast]
      exact e2
    · rw [if_neg e2]
      have hne2 : base + dLen c1 ≠ c1 := fun hx => e2 (by rw [hx])
      have hD1 : 2 ≤ dLen c1 := by
        have := one_le_dLen c1
        omega
      set c2 : Nat := base + dLen c1 with hc2
      have hlt1 : c1 < 10 ^ dLen c1 := lt_pow_dLen c1
      have hmono : dLen c1 ≤ dLen c2 := dLen_mono (by omega)
      have hub2 : dLen c2 ≤ dLen c1 + 1 := by
        apply dLen_le_of_lt_pow (by omega)
        have hp := dLen_lt_pow_self c1
        have hpos : (0:Nat) < 10 ^ dLen c1 := Nat.pos_pow_of_pos _ (by norm_num)
        rw [pow_succ]
        omega
      -- round 3: size with c2
      rw [getLenGo_succ, hc, valText_int_natCast]
      by_cases e3 : natStrB (base + dLen c2) = natStrB c2
      · rw [if_pos e3]
        unfold Stabilized
        rw [hc, valText_int_natCast]
        exact e3
      · rw [if_neg e3]
        have hne3 : base + dLen c2 ≠ c2 := fun hx => e3 (by rw [hx])
        have hD2 : dLen c2 = dLen c1 + 1 := by omega
        set c3 : Nat := base + dLen c2 with hc3
        have hc3v : c3 = c2 + 1 := by omega
        -- c2 crossed a power of ten, so c3 = c2 + 1 has the same digit count
        have hc2ne : c2 ≠ 0 := by omega
        have hge : 10 ^ dLen c1 ≤ c2 := by
          have h2 := pow_pred_dLen_le c2 hc2ne
          rw [hD2] at h2
          simpa using h2
        have hub3 : dLen c3 ≤ dLen c1 + 1 := by
          apply dLen_le_of_lt_pow (by omega)
          have hp := dLen_lt_pow_self c1
          have hpos : (0:Nat) < 10 ^ dLen c1 := Nat.pos_pow_of_pos _ (by norm_num)
          rw [pow_succ]
          omega
        have hlb3 : dLen c1 + 1 ≤ dLen c3 := dLen_ge_of_pow_le (by omega)
        have hD3 : dLen c3 = dLen c2 := by omega
        have hfix : base + dLen c3 = c3 := by omega
        -- round 4: size with c3 equals c3, the loop breaks
        rw [getLenGo_succ, hc, valText_int_natCast]
        rw [if_pos (by rw [hfix])]
        unfold Stabilized
        rw [hc, valText_int_natCast, hfix]

/-- Shape of the solver's result: the initial guess or a numeric length. -/
theorem getLenGo_shape (getDict : PyVal → List (List Nat × PyVal)) :
    ∀ (n : Nat) (l : PyVal), getLenGo getDict n l = l ∨ ∃ c : Nat, getLenGo getDict n l = .int c := by
  intro n
  induction n with
  | zero => intro l; exact Or.inl rfl
  | succ m ih =>
    intro l
    rw [getLenGo_succ]
    by_cases e : natStrB (lenOfAt getDict l) = valText l
    · rw [if_pos e]; exact Or.inl rfl
    · rw [if_neg e]
      rcases ih (.int (lenOfAt getDict l)) with h | h
      · exact Or.inr ⟨lenOfAt getDict l, h⟩
      · exact Or.inr h

theorem getLen_shape (getDict : PyVal → List (List Nat × PyVal)) :
    getLen getDict = .str (str2b "1") ∨ ∃ c : Nat, getLen getDict = .int c :=
  getLenGo_shape getDict 5 _

/-- A dict of the form `R.001 ↦ len` followed by length-independent
entries has affine serialized size. -/
theorem linearLen_cons (k : List Nat) (rest : List (List Nat × PyVal)) :
    LinearLen (fun l => (k, l) :: rest) (k.length + 2 + entriesSize rest) := by
  constructor
  · show (joinDict _).length = _
    rw [joinDict_length]
    simp [entriesSize, entryBytes, valBytes, valText, str2b]
    omega
  · intro c
    show (joinDict _).length = _
    rw [joinDict_length]
    simp [entriesSize, entryBytes, valBytes, valText_int_natCast, dLen]
    omega

/-! ## Record models (eft_helper.py) -/

/-- Default ORI constant (eft_helper.py line 12). -/
def oriB : List Nat := str2b "WVATF0800"

/-- Metadata of a child record as the Type-1 header sees it: its record
type string and its IDC. -/
structure ChildMeta where
  rtype : List Nat
  idc : PyVal
deriving DecidableEq

/-- `Record.__cnt__` (eft_helper.py lines 109-121): `rtype US idc`, with
the IDC zero-padded to two characters when `0 ≤ int(idc) < 10`. -/
def cntEntry (c : ChildMeta) : List Nat :=
  let tmp := pyIntOf c.idc
  let s := if 0 ≤ tmp ∧ tmp < 10 then str2b "0" ++ intStrB tmp else intStrB tmp
  c.rtype ++ [usB] ++ s

/-- Python `str.replace(',', chr(RS_CHAR))`: for single characters of
equal width this is a per-character map. -/
def replaceComma (l : List Nat) : List Nat :=
  l.map (fun b => if b = commaB then rsB else b)

/-- Python `sep.join(parts)`. -/
def sepJoin (sep : List Nat) : List (List Nat) → List Nat
  | [] => []
  | [x] => x
  | x :: rest => x ++ sep ++ sepJoin sep rest

/-- `Type1.get_count_string` (eft_helper.py lines 170-176):
`"1" US N [RS entry [RS entry ...]]`, built by joining the `__cnt__`
strings with `,` and then replacing every `,` by `RS`. -/
def getCountString (cnt : List ChildMeta) : List Nat :=
  let x := str2b "1" ++ [usB] ++ natStrB cnt.length
  if 0 < cnt.length then
    x ++ [rsB] ++ replaceComma (sepJoin [commaB] (cnt.map cntEntry))
  else x

/-- Attributes of a `Type1` record (eft_helper.py lines 145-210). -/
structure Type1Attrs where
  ver : PyVal
  tot : PyVal
  dat : PyVal
  pry : PyVal
  dai : PyVal
  ori : PyVal
  tcn : PyVal
  nsr : PyVal
  ntr : PyVal
  cnt : List ChildMeta

/-- `Type1._get_dict` (eft_helper.py lines 197-210). -/
def type1GetDict (a : Type1Attrs) (l : PyVal) : List (List Nat × PyVal) :=
  [(str2b "1.001", l),
   (str2b "1.002", a.ver),
   (str2b "1.003", .str (getCountString a.cnt)),
   (str2b "1.004", a.tot),
   (str2b "1.005", a.dat),
   (str2b "1.006", a.pry),
   (str2b "1.007", a.dai),
   (str2b "1.008", a.ori),
   (str2b "1.009", a.tcn),
   (str2b "1.011", a.nsr),
   (str2b "1.012", a.ntr)]

def type1Repr (a : Type1Attrs) : List Nat := reprTagged (type1GetDict a)

/-- `dict.update`: replace the value of an existing key in place, append
a new key at the end. -/
def updKey (d : List (List Nat × PyVal)) (k : List Nat) (v : PyVal) :
    List (List Nat × PyVal) :=
  if k ∈ d.map Prod.fst then d.map (fun e => if e.1 = k then (e.1, v) else e)
  else d ++ [(k, v)]

def updAll (d extra : List (List Nat × PyVal)) : List (List Nat × PyVal) :=
  extra.foldl (fun d e => updKey d e.1 e.2) d

/-- `Type2._clean_dict` (eft_helper.py lines 253-259). -/
def cleanDict (d : List (List Nat × PyVal)) : List (List Nat × PyVal) :=
  d.filter (fun e => keepVal e.2)

/-- IDC zero-padding of `Type2._get_dict` (eft_helper.py lines 262-263). -/
def padIdc (idc : PyVal) : PyVal :=
  if (valText idc).length = 1 then .str (str2b "0" ++ valText idc) else idc

/-- Attributes of a `Type2` record (eft_helper.py lines 213-235). -/
structure Type2Attrs where
  idc : PyVal
  ssn : PyVal
  name : PyVal
  aka : PyVal
  pob : PyVal
  ctz : PyVal
  dob : PyVal
  sex : PyVal
  race : PyVal
  height : PyVal
  weight : PyVal
  eye : PyVal
  hair : PyVal
  rsn : PyVal
  dfp : PyVal
  addr : PyVal
  amp : PyVal
  extra : List (List Nat × PyVal)

/-- The dict literal of `Type2._get_dict` before the extra-field merge and
the cleaning pass (eft_helper.py lines 264-286). -/
def type2BaseDict (a : Type2Attrs) (l : PyVal) : List (List Nat × PyVal) :=
  [(str2b "2.001", l),
   (str2b "2.002", padIdc a.idc),
   (str2b "2.005", .str (str2b "N")),
   (str2b "2.016", a.ssn),
   (str2b "2.018", a.name),
   (str2b "2.019", a.aka),
   (str2b "2.020", a.pob),
   (str2b "2.021", a.ctz),
   (str2b "2.022", a.dob),
   (str2b "2.024", a.sex),
   (str2b "2.025", a.race),
   (str2b "2.027", a.height),
   (str2b "2.029", a.weight),
   (str2b "2.031", a.eye),
   (str2b "2.032", a.hair),
   (str2b "2.037", a.rsn),
   (str2b "2.038", a.dfp),
   (str2b "2.041", a.addr),
   (str2b "2.073", .str oriB),
   (str2b "2.084", a.amp)]

/-- `Type2._get_dict` (eft_helper.py lines 261-290): base dict, merged
with the preserved extra fields, then cleaned of empty values. -/
def type2GetDict (a : Type2Attrs) (l : PyVal) : List (List Nat × PyVal) :=
  cleanDict (updAll (type2BaseDict a l) a.extra)

def type2Repr (a : Type2Attrs) : List Nat := reprTagged (type2GetDict a)

/-- Per-finger strings inside a Type-14 record, as produced by the
`Fingerprint` collaborators' `getPosString`/`getScoreString`. -/
structure FingerMeta where
  pos : List Nat
  score : List Nat

/-- The `RS`-joining loops of `Type14.getFingerprintPos` and
`Type14.getFingerprintQuality` (eft_helper.py lines 448-462). -/
def joinRS : List (List Nat) → List Nat
  | [] => []
  | [s] => s
  | s :: rest => s ++ [rsB] ++ joinRS rest

/-- Attributes of a `Type14` record (eft_helper.py lines 387-408); `date`
is the (injectable) `get_date().split(':')[0]` value used for 14.005. -/
structure Type14Attrs where
  idc : PyVal
  imp : PyVal
  src : PyVal
  date : PyVal
  hll : PyVal
  vll : PyVal
  scu : PyVal
  thps : PyVal
  tvps : PyVal
  cga : PyVal
  bpx : PyVal
  fgp : PyVal
  fingers : List FingerMeta
  dat : List Nat

/-- `Type14._get_dict` (eft_helper.py lines 425-446). -/
def type14GetDict (a : Type14Attrs) (l : PyVal) : List (List Nat × PyVal) :=
  [(str2b "14.001", l),
   (str2b "14.002", a.idc),
   (str2b "14.003", a.imp),
   (str2b "14.004", a.src),
   (str2b "14.005", a.date),
   (str2b "14.006", a.hll),
   (str2b "14.007", a.vll),
   (str2b "14.008", a.scu),
   (str2b "14.009", a.thps),
   (str2b "14.010", a.tvps),
   (str2b "14.011", a.cga),
   (str2b "14.012", a.bpx),
   (str2b "14.013", a.fgp),
   (str2b "14.021", .str (joinRS (a.fingers.map FingerMeta.pos))),
   (str2b "14.023", .str (joinRS (a.fingers.map FingerMeta.score))),
   (str2b "14.024", .str (joinRS (a.fingers.map FingerMeta.score))),
   (str2b "14.999", .bytes a.dat)]

def type14Repr (a : Type14Attrs) : List Nat := reprTagged (type14GetDict a)

/-! ## Affine-length structure of the three tagged record types -/

/-- The fixed entries of the Type-2 base dict, after the length field. -/
def type2TailDict (a : Type2Attrs) : List (List Nat × PyVal) :=
  [(str2b "2.002", padIdc a.idc),
   (str2b "2.005", .str (str2b "N")),
   (str2b "2.016", a.ssn),
   (str2b "2.018", a.name),
   (str2b "2.019", a.aka),
   (str2b "2.020", a.pob),
   (str2b "2.021", a.ctz),
   (str2b "2.022", a.dob),
   (str2b "2.024", a.sex),
   (str2b "2.025", a.race),
   (str2b "2.027", a.height),
   (str2b "2.029", a.weight),
   (str2b "2.031", a.eye),
   (str2b "2.032", a.hair),
   (str2b "2.037", a.rsn),
   (str2b "2.038", a.dfp),
   (str2b "2.041", a.addr),
   (str2b "2.073", .str oriB),
   (str2b "2.084", a.amp)]

theorem type2BaseDict_eq (a : Type2Attrs) (l : PyVal) :
    type2BaseDict a l = (str2b "2.001", l) :: type2TailDict a := rfl

theorem updKey_cons_ne (k' : List Nat) (v' : PyVal) (k : List Nat) (v : PyVal)
    (d : List (List Nat × PyVal)) (h : k' ≠ k) :
    updKey ((k, v) :: d) k' v' = (k, v) :: updKey d k' v' := by
  have hm : (k' ∈ ((k, v) :: d).map Prod.fst) ↔ (k' ∈ d.map Prod.fst) := by
    simp [h]
  by_cases hmem : k' ∈ d.map Prod.fst
  · rw [updKey, if_pos (hm.mpr hmem), updKey, if_pos hmem]
    simp [Ne.symm h]
  · rw [updKey, if_neg (fun hc => hmem (hm.mp hc)), updKey, if_neg hmem]
    simp

theorem updAll_cons (k : List Nat) (v : PyVal) (d extra : List (List Nat × PyVal))
    (h : k ∉ extra.map Prod.fst) :
    updAll ((k, v) :: d) extra = (k, v) :: updAll d extra := by
  induction extra generalizing d with
  | nil => rfl
  | cons e rest ih =>
    simp only [List.map_cons, List.mem_cons] at h
    push_neg at h
    have step : updAll ((k, v) :: d) (e :: rest) = updAll ((k, v) :: updKey d e.1 e.2) rest := by
      unfold updAll
      rw [List.foldl_cons, updKey_cons_ne e.1 e.2 k v d (fun hx => h.1 hx.symm)]
    rw [step, ih (updKey d e.1 e.2) h.2]
    rfl

theorem cleanDict_cons_keep (k : List Nat) (v : PyVal) (d : List (List Nat × PyVal))
    (h : keepVal v = true) : cleanDict ((k, v) :: d) = (k, v) :: cleanDict d := by
  simp [cleanDict, h]

/-- Structure of the Type-2 dict at a length value the solver can hold:
the length field survives cleaning and stays in front. -/
theorem type2GetDict_eq (a : Type2Attrs) (l : PyVal)
    (hx : str2b "2.001" ∉ a.extra.map Prod.fst) (hk : keepVal l = true) :
    type2GetDict a l = (str2b "2.001", l) :: cleanDict (updAll (type2TailDict a) a.extra) := by
  unfold type2GetDict
  rw [type2BaseDict_eq, updAll_cons _ _ _ _ hx, cleanDict_cons_keep _ _ _ hk]

theorem lenOfAt_cons (g : PyVal → List (List Nat × PyVal)) (k : List Nat)
    (rest : List (List Nat × PyVal)) (l : PyVal) (hg : g l = (k, l) :: rest) :
    lenOfAt g l = k.length + 2 + entriesSize rest + (valBytes l).length := by
  rw [lenOfAt, hg, joinDict_length]
  simp [entriesSize, entryBytes]
  omega

theorem valBytes_str_one : (valBytes (.str (str2b "1"))).length = 1 := rfl

theorem valBytes_int_natCast (c : Nat) : (valBytes (.int (c : Int))).length = dLen c := rfl

theorem keepVal_solver (l : PyVal) (h : l = .str (str2b "1") ∨ ∃ c : Nat, l = .int c) :
    keepVal l = true := by
  rcases h with h | ⟨c, h⟩ <;> subst h <;> rfl

theorem type1_linear (a : Type1Attrs) : ∃ b, LinearLen (type1GetDict a) b := by
  refine ⟨5 + 2 + entriesSize (type1GetDict a (.int 0)).tail, ?_, ?_⟩
  · rw [lenOfAt_cons (type1GetDict a) (str2b "1.001") _ _ rfl, valBytes_str_one]
    rfl
  · intro c
    rw [lenOfAt_cons (type1GetDict a) (str2b "1.001") _ _ rfl, valBytes_int_natCast]
    rfl

theorem type14_linear (a : Type14Attrs) : ∃ b, LinearLen (type14GetDict a) b := by
  refine ⟨6 + 2 + entriesSize (type14GetDict a (.int 0)).tail, ?_, ?_⟩
  · rw [lenOfAt_cons (type14GetDict a) (str2b "14.001") _ _ rfl, valBytes_str_one]
    rfl
  · intro c
    rw [lenOfAt_cons (type14GetDict a) (str2b "14.001") _ _ rfl, valBytes_int_natCast]
    rfl

theorem type2_linear (a : Type2Attrs) (hx : str2b "2.001" ∉ a.extra.map Prod.fst) :
    ∃ b, LinearLen (type2GetDict a) b := by
  refine ⟨5 + 2 + entriesSize (cleanDict (updAll (type2TailDict a) a.extra)), ?_, ?_⟩
  · rw [lenOfAt_cons (type2GetDict a) (str2b "2.001") _ _
      (type2GetDict_eq a _ hx (by rfl)), valBytes_str_one]
    rfl
  · intro c
    rw [lenOfAt_cons (type2GetDict a) (str2b "2.001") _ _
      (type2GetDict_eq a _ hx (by rfl)), valBytes_int_natCast]
    rfl

/-! ## Claims C1 and C8: the length field is a fixed point -/

/-- A sample biographic record used by concrete witnesses. -/
def sampleType2 : Type2Attrs :=
  { idc := .int 0, ssn := .str (str2b "123456789"), name := .str (str2b "DOE, JANE NMN"),
    aka := .str [], pob := .str [], ctz := .str [], dob := .str (str2b "19900101"),
    sex := .str [], race := .str [], height := .str (str2b "509"),
    weight := .str (str2b "140"), eye := .str [], hair := .str [],
    rsn := .str (str2b "Firearms"), dfp := .str (str2b "20250114"),
    addr := .str [], amp := .str [], extra := [] }

/-- C1: for every Type-1, Type-2 and Type-14 record, the textual value
held by the length field `R.001` in the serialized dict equals the decimal
rendering of the byte length of the record's full serialization `repr()`
(which includes the terminating `FS`, counted by `join_dict`).  For Type-2
the preserved extra fields must not shadow `2.001`, which `Type2.from_dict`
guarantees (eft_helper.py line 249). -/
theorem c1_length_field_matches_serialization :
    (∀ a : Type1Attrs,
      ∃ lv, (type1GetDict a (getLen (type1GetDict a))).lookup (str2b "1.001") = some lv ∧
        valText lv = natStrB (type1Repr a).length) ∧
    (∀ a : Type2Attrs, str2b "2.001" ∉ a.extra.map Prod.fst →
      ∃ lv, (type2GetDict a (getLen (type2GetDict a))).lookup (str2b "2.001") = some lv ∧
        valText lv = natStrB (type2Repr a).length) ∧
    (∀ a : Type14Attrs,
      ∃ lv, (type14GetDict a (getLen (type14GetDict a))).lookup (str2b "14.001") = some lv ∧
        valText lv = natStrB (type14Repr a).length) := by
  refine ⟨fun a => ?_, fun a hx => ?_, fun a => ?_⟩
  · obtain ⟨b, hb⟩ := type1_linear a
    have hs := getLen_stabilized _ b hb
    exact ⟨getLen (type1GetDict a), by simp [type1GetDict, List.lookup], hs.symm⟩
  · obtain ⟨b, hb⟩ := type2_linear a hx
    have hs := getLen_stabilized _ b hb
    refine ⟨getLen (type2GetDict a), ?_, hs.symm⟩
    rw [type2GetDict_eq a _ hx (keepVal_solver _ (getLen_shape _))]
    simp [List.lookup]
  · obtain ⟨b, hb⟩ := type14_linear a
    have hs := getLen_stabilized _ b hb
    exact ⟨getLen (type14GetDict a), by simp [type14GetDict, List.lookup], hs.symm⟩

theorem c1_length_field_matches_serialization_witness :
    (str2b "2.001" ∉ sampleType2.extra.map Prod.fst) ∧
    (∃ lv, (type2GetDict sampleType2 (getLen (type2GetDict sampleType2))).lookup
        (str2b "2.001") = some lv ∧
      valText lv = natStrB (type2Repr sampleType2).length) :=
  ⟨by decide, c1_length_field_matches_serialization.2.1 sampleType2 (by decide)⟩

/-- C8: the iteration cap of the length solver never binds.  For every
Type-1, Type-2 and Type-14 record the loop of `Record._get_len` reaches
its break condition (`Stabilized`: serializing with the returned length
value yields exactly that many bytes) within the 5-round cap, so the
"no fixed point" situation does not arise and `repr()` never emits output
whose `R.001` disagrees with the serialized length.  (The code contains no
explicit "unstable length" error; the loop would silently stop after 5
rounds, but that branch is unreachable for these record shapes.) -/
theorem c8_length_solver_always_stabilizes :
    (∀ a : Type1Attrs, Stabilized (type1GetDict a) (getLen (type1GetDict a))) ∧
    (∀ a : Type2Attrs, str2b "2.001" ∉ a.extra.map Prod.fst →
      Stabilized (type2GetDict a) (getLen (type2GetDict a))) ∧
    (∀ a : Type14Attrs, Stabilized (type14GetDict a) (getLen (type14GetDict a))) := by
  refine ⟨fun a => ?_, fun a hx => ?_, fun a => ?_⟩
  · obtain ⟨b, hb⟩ := type1_linear a
    exact getLen_stabilized _ b hb
  · obtain ⟨b, hb⟩ := type2_linear a hx
    exact getLen_stabilized _ b hb
  · obtain ⟨b, hb⟩ := type14_linear a
    exact getLen_stabilized _ b hb

theorem c8_length_solver_always_stabilizes_witness :
    (str2b "2.001" ∉ sampleType2.extra.map Prod.fst) ∧
    Stabilized (type2GetDict sampleType2) (getLen (type2GetDict sampleType2)) :=
  ⟨by decide, c8_length_solver_always_stabilizes.2.1 sampleType2 (by decide)⟩

/-! ## Type-4 binary records (eft_helper.py lines 292-385)

`Type4.repr` packs an 18-byte big-endian header with `struct.pack
'>I B B 6B B H H B'` and appends the image bytes; `struct.pack` raises
`struct.error` when a value is out of range for its format code, modelled
by `Option`.  `Type4Raw.repr` (lines 565-585) runs the identical packing
code. -/

/-- `B`: one unsigned byte. -/
def packB? (n : Int) : Option (List Nat) :=
  if 0 ≤ n ∧ n < 256 then some [n.toNat] else none

/-- `>H`: big-endian unsigned 16-bit. -/
def packH? (n : Int) : Option (List Nat) :=
  if 0 ≤ n ∧ n < 65536 then some [n.toNat / 256, n.toNat % 256] else none

/-- `>I`: big-endian unsigned 32-bit. -/
def packI? (n : Int) : Option (List Nat) :=
  if 0 ≤ n ∧ n < 4294967296 then
    some [n.toNat / 16777216, n.toNat / 65536 % 256, n.toNat / 256 % 256, n.toNat % 256]
  else none

/-- Attributes of a `Type4` record: all header fields are Python ints
(`Type4.__init__` coerces them), plus the image bytes. -/
structure Type4Attrs where
  idc : Int
  imp : Int
  fgp : Int
  isr : Int
  hll : Int
  vll : Int
  cga : Int
  dat : List Nat

/-- `Type4._get_len` (eft_helper.py lines 355-357): 18-byte header plus
data. -/
def type4GetLen (a : Type4Attrs) : Nat := 18 + a.dat.length

/-- `Type4.repr` (eft_helper.py lines 359-385): header, with the FGP array
`[fgp, 255, 255, 255, 255, 255]`, followed by the data. -/
def type4Repr? (a : Type4Attrs) : Option (List Nat) := do
  let bl ← packI? (type4GetLen a)
  let bidc ← packB? a.idc
  let bimp ← packB? a.imp
  let bfgp ← packB? a.fgp
  let bisr ← packB? a.isr
  let bhll ← packH? a.hll
  let bvll ← packH? a.vll
  let bcga ← packB? a.cga
  pure (bl ++ bidc ++ bimp ++ bfgp ++ [255, 255, 255, 255, 255] ++ bisr ++
        bhll ++ bvll ++ bcga ++ a.dat)

/-- The first four bytes as a big-endian uint32. -/
def readU32be : List Nat → Nat
  | b0 :: b1 :: b2 :: b3 :: _ => b0 * 16777216 + b1 * 65536 + b2 * 256 + b3
  | _ => 0

theorem packB?_inv {n : Int} {l : List Nat} (h : packB? n = some l) :
    0 ≤ n ∧ n < 256 ∧ l = [n.toNat] := by
  unfold packB? at h
  split at h
  next hc => exact ⟨hc.1, hc.2, (Option.some.inj h).symm⟩
  next => cases h

theorem packH?_inv {n : Int} {l : List Nat} (h : packH? n = some l) :
    0 ≤ n ∧ n < 65536 ∧ l = [n.toNat / 256, n.toNat % 256] := by
  unfold packH? at h
  split at h
  next hc => exact ⟨hc.1, hc.2, (Option.some.inj h).symm⟩
  next => cases h

theorem packI?_inv {n : Int} {l : List Nat} (h : packI? n = some l) :
    0 ≤ n ∧ n < 4294967296 ∧
      l = [n.toNat / 16777216, n.toNat / 65536 % 256, n.toNat / 256 % 256, n.toNat % 256] := by
  unfold packI? at h
  split at h
  next hc => exact ⟨hc.1, hc.2, (Option.some.inj h).symm⟩
  next => cases h

/-- C3: whenever a Type-4 record serializes, the output is an 18-byte
header followed by the image payload, and its first four bytes, read as a
big-endian uint32, equal `18 + len(DATA)` (= `Type4._get_len`). -/
theorem c3_type4_header_length (a : Type4Attrs) (bs : List Nat)
    (h : type4Repr? a = some bs) :
    ∃ hdr, bs = hdr ++ a.dat ∧ hdr.length = 18 ∧ readU32be bs = 18 + a.dat.length := by
  unfold type4Repr? at h
  simp only [bind, Option.bind_eq_some, pure, Option.some.injEq] at h
  obtain ⟨bl, hbl, bidc, hbidc, bimp, hbimp, bfgp, hbfgp, bisr, hbisr,
    bhll, hbhll, bvll, hbvll, bcga, hbcga, hbs⟩ := h
  obtain ⟨hl0, hl1, hleq⟩ := packI?_inv hbl
  obtain ⟨-, -, hidceq⟩ := packB?_inv hbidc
  obtain ⟨-, -, himpeq⟩ := packB?_inv hbimp
  obtain ⟨-, -, hfgpeq⟩ := packB?_inv hbfgp
  obtain ⟨-, -, hisreq⟩ := packB?_inv hbisr
  obtain ⟨-, -, hhlleq⟩ := packH?_inv hbhll
  obtain ⟨-, -, hvlleq⟩ := packH?_inv hbvll
  obtain ⟨-, -, hcgaeq⟩ := packB?_inv hbcga
  subst hleq hidceq himpeq hfgpeq hisreq hhlleq hvlleq hcgaeq
  rw [← hbs]
  set N : Nat := ((type4GetLen a : Int)).toNat with hN
  have hNv : N = 18 + a.dat.length := by
    rw [hN]
    simp only [type4GetLen]
    omega
  have hNlt : N < 4294967296 := by omega
  refine ⟨_, rfl, ?_, ?_⟩
  · simp
  · show readU32be (N / 16777216 :: N / 65536 % 256 :: N / 256 % 256 :: N % 256 :: _) = _
    simp only [readU32be]
    omega

/-- A sample Type-4 record for the concrete witness. -/
def sampleType4 : Type4Attrs :=
  { idc := 1, imp := 1, fgp := 1, isr := 0, hll := 800, vll := 750, cga := 1,
    dat := [255, 160, 29, 28, 7] }

theorem c3_type4_header_length_witness :
    ∃ bs, type4Repr? sampleType4 = some bs ∧
      ∃ hdr, bs = hdr ++ sampleType4.dat ∧ hdr.length = 18 ∧
        readU32be bs = 18 + sampleType4.dat.length :=
  ⟨_, rfl, c3_type4_header_length sampleType4 _ rfl⟩

/-! ## Claim C4: structure of the `join_dict` output -/

/-- Modelled from the spec's §4.1 contract, for comparison with
`join_dict`: "the output [...] continues in ascending tag order, and ends
with one `FS` byte" — each entry as `tag:value`, consecutive entries
separated by exactly one `GS`, one final `FS`, no trailing `GS`. -/
def specFieldLayout (entries : List (List Nat × PyVal)) : List Nat :=
  sepJoin [gsB] (entries.map (fun e => entryBytes e.1 e.2)) ++ [fsB]

theorem emitEntries_eq_layout (d : List (List Nat × PyVal)) (h : d ≠ []) :
    emitEntries d = specFieldLayout d := by
  induction d with
  | nil => exact absurd rfl h
  | cons e rest ih =>
    cases rest with
    | nil => simp [emitEntries, specFieldLayout, sepJoin]
    | cons e' rest' =>
      obtain ⟨k, v⟩ := e
      rw [show emitEntries ((k, v) :: e' :: rest') =
            entryBytes k v ++ [gsB] ++ emitEntries (e' :: rest') from rfl,
        ih (by simp)]
      simp [specFieldLayout, sepJoin]

theorem keyLt_of_keyLe_ne (a b : Int × Int) (h1 : keyLe a b) (h2 : a ≠ b) : keyLt a b := by
  unfold keyLe at h1
  unfold keyLt
  simp only [Ne, Prod.ext_iff, not_and] at h2
  rcases h1 with h | ⟨he, hle⟩
  · exact Or.inl h
  · exact Or.inr ⟨he, lt_of_le_of_ne hle (h2 he)⟩

/-- C4: on a field dict whose tags all parse to distinct `(type, field)`
sort keys, with the length tag `k1` (the `R.001` tag) strictly minimal
among them, the serializer's output lists the entries in strictly
ascending `(type, field)` order starting with the `R.001` entry,
separates consecutive entries with exactly one `GS`, and ends with exactly
one `FS` (no trailing `GS`).  The two hypotheses are exactly what the
claim's "keys are all valid tags `<type>.<3-digit field>`" of a record
guarantees. -/
theorem c4_join_dict_layout (d : List (List Nat × PyVal)) (k1 : List Nat)
    (hmem : k1 ∈ d.map Prod.fst)
    (hmin : ∀ k ∈ d.map Prod.fst, k ≠ k1 → keyLt (sortKey k1) (sortKey k))
    (hnd : (d.map (fun e => sortKey e.1)).Nodup) :
    joinDict d = specFieldLayout (List.insertionSort entryLe d) ∧
    (List.insertionSort entryLe d).Pairwise
      (fun e₁ e₂ => keyLt (sortKey e₁.1) (sortKey e₂.1)) ∧
    ∃ v rest, List.insertionSort entryLe d = (k1, v) :: rest := by
  have hperm := List.perm_insertionSort entryLe d
  set s := List.insertionSort entryLe d with hs
  have hnonempty : s ≠ [] := by
    intro hc
    rw [hc] at hperm
    rw [hperm.symm.eq_nil] at hmem
    simp at hmem
  refine ⟨?_, ?_, ?_⟩
  · rw [joinDict, emitEntries_eq_layout _ hnonempty]
  · have hsorted : s.Pairwise entryLe := List.sorted_insertionSort entryLe d
    have hnd' : (s.map (fun e => sortKey e.1)).Nodup := ((hperm.map _).nodup_iff).mpr hnd
    rw [List.Nodup, List.pairwise_map] at hnd'
    exact (hsorted.and hnd').imp (fun h => keyLt_of_keyLe_ne _ _ h.1 h.2)
  · obtain ⟨e, rest⟩ := List.exists_cons_of_ne_nil hnonempty
    obtain ⟨tl, htl⟩ := rest
    have hk : e.1 = k1 := by
      by_contra hne
      have hk1s : k1 ∈ s.map Prod.fst := by
        rw [(hperm.map Prod.fst).mem_iff]
        exact hmem
      rw [htl] at hk1s
      simp only [List.map_cons, List.mem_cons] at hk1s
      rcases hk1s with hk1s | hk1s
      · exact hne hk1s.symm
      · obtain ⟨e', he'mem, he'k⟩ := List.mem_map.mp hk1s
        have hsorted : s.Pairwise entryLe := List.sorted_insertionSort entryLe d
        rw [htl] at hsorted
        have hle : entryLe e e' := (List.pairwise_cons.mp hsorted).1 e' he'mem
        have hemem : e.1 ∈ d.map Prod.fst := by
          apply List.mem_map_of_mem
          rw [← hperm.mem_iff, htl]
          exact List.mem_cons_self e tl
        have hlt := hmin e.1 hemem hne
        unfold entryLe keyLe at hle
        unfold keyLt at hlt
        rw [he'k] at hle
        omega
    exact ⟨e.2, tl, by rw [htl, ← hk]⟩

/-- A sample out-of-order dict for the C4 witness: `2.001` must come
first, `2.018` last, after sorting. -/
def sampleDictC4 : List (List Nat × PyVal) :=
  [(str2b "2.018", .str (str2b "DOE, JANE")),
   (str2b "2.001", .str (str2b "58")),
   (str2b "2.005", .str (str2b "N"))]

theorem digit_bytes_range (n : Nat) : ∀ b ∈ natStrB n, 48 ≤ b ∧ b ≤ 57 := by
  intro b hb
  unfold natStrB at hb
  by_cases h : n = 0
  · simp [h] at hb
    omega
  · simp only [h, if_false, digitsGo_eq_digits n n le_rfl, List.mem_map,
      List.mem_reverse] at hb
    obtain ⟨d, hd, hdb⟩ := hb
    have := Nat.digits_lt_base (by norm_num : 1 < 10) hd
    omega

theorem int_bytes_range (i : Int) : ∀ b ∈ intStrB i, b = 45 ∨ (48 ≤ b ∧ b ≤ 57) := by
  intro b hb
  cases i with
  | ofNat n => exact Or.inr (digit_bytes_range n b hb)
  | negSucc n =>
    simp only [intStrB, List.mem_cons] at hb
    rcases hb with hb | hb
    · exact Or.inl hb
    · exact Or.inr (digit_bytes_range (n + 1) b hb)

/-- `str(n)` has one character for `n < 10`. -/
theorem dLen_lt_ten {n : Nat} (h : n < 10) : dLen n = 1 := by
  rw [dLen_eq]
  by_cases h0 : n = 0
  · simp [h0]
  · simp only [h0, if_false]
    rw [Nat.log_eq_zero_iff.mpr (Or.inl h)]

/-- `str(n)` has two characters for `10 ≤ n < 100`. -/
theorem dLen_two {n : Nat} (h1 : 10 ≤ n) (h2 : n < 100) : dLen n = 2 := by
  rw [dLen_eq]
  have h0 : n ≠ 0 := by omega
  simp only [h0, if_false]
  rw [Nat.log_eq_of_pow_le_of_lt_pow (m := 1) (by simpa using h1)
    (by have : (10:Nat) ^ (1 + 1) = 100 := by norm_num
        omega)]

/-- Round-trip: feeding decimal digit characters to the parser loop. -/
theorem pyNatGo_digits (ds : List Nat) (h : ∀ d ∈ ds, d < 10) (a : Nat) :
    pyNatGo (some a) (ds.map (fun d => 48 + d)) =
      some (ds.foldl (fun acc d => acc * 10 + d) a) := by
  induction ds generalizing a with
  | nil => rfl
  | cons d t ih =>
    have hd : d < 10 := h d (List.mem_cons_self d t)
    have hdv : digitVal? (48 + d) = some d := by
      unfold digitVal?
      rw [if_pos (by omega)]
      congr 1
      omega
    simp only [List.map_cons, pyNatGo, hdv]
    exact ih (fun x hx => h x (List.mem_cons_of_mem d hx)) (a * 10 + d)

theorem foldl_reverse_digits (ds : List Nat) :
    ∀ a : Nat, ds.reverse.foldl (fun acc d => acc * 10 + d) a =
      a * 10 ^ ds.length + Nat.ofDigits 10 ds := by
  induction ds with
  | nil => intro a; simp [Nat.ofDigits]
  | cons d t ih =>
    intro a
    rw [List.reverse_cons, List.foldl_append, ih a]
    simp only [List.foldl_cons, List.foldl_nil, Nat.ofDigits_cons, List.length_cons]
    ring

theorem natStrB_ne_nil (n : Nat) : natStrB n ≠ [] := by
  intro hx
  have h1 := one_le_dLen n
  unfold dLen at h1
  rw [hx] at h1
  simp at h1

theorem pyNatParse?_ne_nil (l : List Nat) (h : l ≠ []) :
    pyNatParse? l = pyNatGo (some 0) l := by
  cases l with
  | nil => exact absurd rfl h
  | cons b t => rfl

/-- Python `int(str(n)) == n`. -/
theorem pyNatParse_natStrB (n : Nat) : pyNatParse? (natStrB n) = some n := by
  by_cases h : n = 0
  · rw [h]; rfl
  · rw [pyNatParse?_ne_nil _ (natStrB_ne_nil n)]
    unfold natStrB
    simp only [h, if_false, digitsGo_eq_digits n n le_rfl]
    rw [pyNatGo_digits ((Nat.digits 10 n).reverse) (fun d hd =>
        Nat.digits_lt_base (by norm_num) (List.mem_reverse.mp hd)) 0,
      foldl_reverse_digits]
    simp [Nat.ofDigits_digits]

/-- Parsing a zero-padded decimal string gives the same number. -/
theorem pyNatParse_pad (n : Nat) : pyNatParse? (48 :: natStrB n) = some n := by
  rw [pyNatParse?_ne_nil _ (by simp)]
  have h48 : digitVal? 48 = some 0 := rfl
  simp only [pyNatGo, h48]
  show pyNatGo (some 0) (natStrB n) = some n
  rw [← pyNatParse?_ne_nil _ (natStrB_ne_nil n)]
  exact pyNatParse_natStrB n

theorem c4_join_dict_layout_witness :
    ((str2b "2.001" ∈ sampleDictC4.map Prod.fst) ∧
     (∀ k ∈ sampleDictC4.map Prod.fst, k ≠ str2b "2.001" →
        keyLt (sortKey (str2b "2.001")) (sortKey k)) ∧
     (sampleDictC4.map (fun e => sortKey e.1)).Nodup) ∧
    (joinDict sampleDictC4 = specFieldLayout (List.insertionSort entryLe sampleDictC4) ∧
     (List.insertionSort entryLe sampleDictC4).Pairwise
       (fun e₁ e₂ => keyLt (sortKey e₁.1) (sortKey e₂.1)) ∧
     ∃ v rest, List.insertionSort entryLe sampleDictC4 = (str2b "2.001", v) :: rest) :=
  ⟨⟨by decide, by decide, by decide⟩,
   c4_join_dict_layout sampleDictC4 (str2b "2.001") (by decide) (by decide) (by decide)⟩

/-! ## Claim C5: the CNT record directory (1.003) -/

/-- The kinds of child record the generator attaches to the Type-1 header
(eft_generator.py lines 168, 193-195, 208-211). -/
inductive ChildRec where
  | t2 (a : Type2Attrs)
  | t14 (a : Type14Attrs)
  | t4 (a : Type4Attrs)

/-- The `(rtype, idc)` pair that `Record.__cnt__` reads off a child record
object (`Type2`/`Type14` store `idc` as given; `Type4.__init__` coerces it
to `int`). -/
def childMeta : ChildRec → ChildMeta
  | .t2 a => ⟨str2b "2", a.idc⟩
  | .t14 a => ⟨str2b "14", a.idc⟩
  | .t4 a => ⟨str2b "4", .int a.idc⟩

theorem replaceComma_of_free (l : List Nat) (h : commaB ∉ l) : replaceComma l = l := by
  induction l with
  | nil => rfl
  | cons b t ih =>
    simp only [List.mem_cons] at h
    push_neg at h
    have hb : ¬ b = commaB := fun hx => h.1 hx.symm
    show (if b = commaB then rsB else b) :: replaceComma t = b :: t
    rw [if_neg hb, ih h.2]

theorem replaceComma_sepJoin (parts : List (List Nat)) (h : ∀ p ∈ parts, commaB ∉ p) :
    replaceComma (sepJoin [commaB] parts) = sepJoin [rsB] parts := by
  induction parts with
  | nil => rfl
  | cons x t ih =>
    cases t with
    | nil => exact replaceComma_of_free x (h x (List.mem_cons_self x []))
    | cons y t' =>
      have hx := replaceComma_of_free x (h x (List.mem_cons_self x _))
      have hrest := ih (fun p hp => h p (List.mem_cons_of_mem x hp))
      calc replaceComma (sepJoin [commaB] (x :: y :: t'))
          = replaceComma x ++ replaceComma [commaB] ++
              replaceComma (sepJoin [commaB] (y :: t')) := by
            unfold replaceComma
            rw [show sepJoin [commaB] (x :: y :: t') =
                  x ++ [commaB] ++ sepJoin [commaB] (y :: t') from rfl,
              List.map_append, List.map_append]
        _ = sepJoin [rsB] (x :: y :: t') := by
            rw [hx, hrest]
            rfl

/-- CNT shape: `"1" US N`, then one `RS`-prefixed `__cnt__` pair per
child, in order. -/
theorem getCountString_shape (ms : List ChildMeta) (h : ∀ m ∈ ms, commaB ∉ cntEntry m) :
    getCountString ms =
      sepJoin [rsB] ((str2b "1" ++ [usB] ++ natStrB ms.length) :: ms.map cntEntry) := by
  unfold getCountString
  cases ms with
  | nil => rfl
  | cons m t =>
    rw [if_pos (by simp)]
    rw [replaceComma_sepJoin _ (fun p hp => by
      obtain ⟨m', hm', hpe⟩ := List.mem_map.mp hp
      rw [← hpe]
      exact h m' hm')]
    rfl

/-- Two-character zero-padded decimal, the shape `__cnt__` produces for
`0 ≤ idc < 100`. -/
def pad2 (n : Nat) : List Nat := if n < 10 then 48 :: natStrB n else natStrB n

theorem cntEntry_pad (m : ChildMeta) (n : Nat) (hidc : pyIntOf m.idc = (n : Int))
    (hn : n < 100) :
    cntEntry m = m.rtype ++ [usB] ++ pad2 n ∧ (pad2 n).length = 2 := by
  constructor
  · unfold cntEntry
    rw [hidc]
    show m.rtype ++ [usB] ++
        (if 0 ≤ (n : Int) ∧ (n : Int) < 10 then str2b "0" ++ intStrB (n : Int)
         else intStrB (n : Int)) = m.rtype ++ [usB] ++ pad2 n
    by_cases h : n < 10
    · have hc : 0 ≤ (n : Int) ∧ (n : Int) < 10 := by omega
      rw [if_pos hc]
      unfold pad2
      rw [if_pos h]
      rfl
    · have hc : ¬ (0 ≤ (n : Int) ∧ (n : Int) < 10) := by omega
      rw [if_neg hc]
      unfold pad2
      rw [if_neg h]
      rfl
  · unfold pad2
    by_cases h : n < 10
    · rw [if_pos h]
      show (natStrB n).length + 1 = 2
      rw [show (natStrB n).length = dLen n from rfl, dLen_lt_ten h]
    · rw [if_neg h]
      show dLen n = 2
      exact dLen_two (by omega) hn

theorem keepVal_padIdc_int (n : Nat) : keepVal (padIdc (.int n)) = true := by
  unfold padIdc
  split
  · show ((str2b "0" ++ valText (.int n) ≠ []) : Bool) = true
    rw [show str2b "0" = [48] from rfl]
    simp
  · rfl

theorem pyIntOf_padIdc_int (n : Nat) : pyIntOf (padIdc (.int (n : Int))) = n := by
  unfold padIdc
  split
  · show pyIntOf (.str (str2b "0" ++ valText (.int (n : Int)))) = n
    rw [valText_int_natCast]
    show (pyIntParse? (48 :: natStrB n)).getD 0 = (n : Int)
    rw [show pyIntParse? (48 :: natStrB n) =
        (pyNatParse? (48 :: natStrB n)).map (fun m => (m : Int)) from rfl,
      pyNatParse_pad]
    rfl
  · rfl

/-- Serialized IDC of a Type-2 record: the `2.002` entry of its dict
holds the zero-padded IDC (the extra fields must not shadow the two
structural tags, which `Type2.from_dict` guarantees, eft_helper.py
line 249). -/
theorem type2_serialized_idc (a : Type2Attrs) (l : PyVal) (n : Nat) (hidc : a.idc = .int n)
    (h1 : str2b "2.001" ∉ a.extra.map Prod.fst) (h2 : str2b "2.002" ∉ a.extra.map Prod.fst)
    (hk : keepVal l = true) :
    (type2GetDict a l).lookup (str2b "2.002") = some (padIdc a.idc) ∧
      pyIntOf (padIdc a.idc) = n := by
  constructor
  · unfold type2GetDict
    rw [type2BaseDict_eq]
    rw [show type2TailDict a = (str2b "2.002", padIdc a.idc) :: (type2TailDict a).tail from rfl]
    rw [updAll_cons _ _ _ _ h1, updAll_cons _ _ _ _ h2,
      cleanDict_cons_keep _ _ _ hk,
      cleanDict_cons_keep _ _ _ (by rw [hidc]; exact keepVal_padIdc_int n)]
    have hne : (str2b "2.002" == str2b "2.001") = false := by decide
    have heq : (str2b "2.002" == str2b "2.002") = true := by decide
    simp [List.lookup, hne, heq]
  · rw [hidc]
    exact pyIntOf_padIdc_int n

/-- Serialized IDC of a Type-14 record: `14.002` holds the raw `idc`
attribute, with no padding (eft_helper.py line 428). -/
theorem type14_serialized_idc (a : Type14Attrs) (l : PyVal) :
    (type14GetDict a l).lookup (str2b "14.002") = some a.idc := by
  have hne : (str2b "14.002" == str2b "14.001") = false := by decide
  have heq : (str2b "14.002" == str2b "14.002") = true := by decide
  simp [type14GetDict, List.lookup, hne, heq]

/-- Serialized IDC of a Type-4 record: byte 4 of the packed header. -/
theorem type4_serialized_idc (a : Type4Attrs) (bs : List Nat)
    (h : type4Repr? a = some bs) : bs.get? 4 = some a.idc.toNat := by
  unfold type4Repr? at h
  simp only [bind, Option.bind_eq_some, pure, Option.some.injEq] at h
  obtain ⟨bl, hbl, bidc, hbidc, bimp, hbimp, bfgp, hbfgp, bisr, hbisr,
    bhll, hbhll, bvll, hbvll, bcga, hbcga, hbs⟩ := h
  obtain ⟨-, -, hleq⟩ := packI?_inv hbl
  obtain ⟨-, -, hidceq⟩ := packB?_inv hbidc
  subst hleq hidceq
  rw [← hbs]
  rfl

/-- A sample Type-14 record with IDC 1 (as the generator assigns,
eft_generator.py lines 199, 208, 212). -/
def sampleType14 : Type14Attrs :=
  { idc := .int 1, imp := .str (str2b "1"), src := .str oriB,
    date := .str (str2b "20250114"), hll := .str (str2b "1600"),
    vll := .str (str2b "1000"), scu := .str (str2b "1"),
    thps := .str (str2b "500"), tvps := .str (str2b "500"),
    cga := .str (str2b "WSQ20"), bpx := .str (str2b "8"),
    fgp := .str (str2b "13"), fingers := [], dat := [255, 160] }

/-- C5 counterexample: for a Type-14 child with IDC 1, the CNT directory
pair carries the zero-padded text `01`, but the value serialized inside
the child under `14.002` is the unpadded `1` — the claimed textual match
between the CNT pair and the child's serialized IDC fails. -/
theorem c5_cnt_directory_counterexample :
    getCountString [childMeta (.t14 sampleType14)] =
      str2b "1" ++ [usB] ++ str2b "1" ++ [rsB] ++ str2b "14" ++ [usB] ++ str2b "01" ∧
    (type14GetDict sampleType14 (.int 0)).lookup (str2b "14.002") = some (.int 1) ∧
    valBytes (.int 1) ≠ str2b "01" := by
  refine ⟨by decide, ?_, by decide⟩
  exact type14_serialized_idc sampleType14 (.int 0)

/-- C5 as amended: the CNT field of the Type-1 record has the claimed
shape `1 US N` followed by `RS`-separated `(type, IDC)` pairs listing the
children in emission order with IDCs zero-padded to two digits; the pair
matches the IDC serialized inside the corresponding child *numerically*
(Type-2 serializes it zero-padded, Type-14 unpadded, Type-4 as a raw
header byte), not always textually. -/
theorem c5_cnt_directory_amended :
    (∀ ms : List ChildMeta, (∀ m ∈ ms, commaB ∉ cntEntry m) →
      getCountString ms =
        sepJoin [rsB] ((str2b "1" ++ [usB] ++ natStrB ms.length) :: ms.map cntEntry)) ∧
    (∀ (m : ChildMeta) (n : Nat), pyIntOf m.idc = (n : Int) → n < 100 →
      cntEntry m = m.rtype ++ [usB] ++ pad2 n ∧ (pad2 n).length = 2) ∧
    (∀ (a : Type2Attrs) (l : PyVal) (n : Nat), a.idc = .int n →
      str2b "2.001" ∉ a.extra.map Prod.fst → str2b "2.002" ∉ a.extra.map Prod.fst →
      keepVal l = true →
      (type2GetDict a l).lookup (str2b "2.002") = some (padIdc a.idc) ∧
        pyIntOf (padIdc a.idc) = n) ∧
    (∀ (a : Type14Attrs) (l : PyVal),
      (type14GetDict a l).lookup (str2b "14.002") = some a.idc) ∧
    (∀ (a : Type4Attrs) (bs : List Nat), type4Repr? a = some bs →
      bs.get? 4 = some a.idc.toNat) :=
  ⟨getCountString_shape, cntEntry_pad, type2_serialized_idc,
   type14_serialized_idc, type4_serialized_idc⟩

theorem c5_cnt_directory_amended_witness :
    ((∀ m ∈ [childMeta (.t2 sampleType2)], commaB ∉ cntEntry m) ∧
      getCountString [childMeta (.t2 sampleType2)] =
        sepJoin [rsB] ((str2b "1" ++ [usB] ++ natStrB 1) ::
          [childMeta (.t2 sampleType2)].map cntEntry)) ∧
    (pyIntOf (childMeta (.t2 sampleType2)).idc = ((0 : Nat) : Int) ∧ (0 : Nat) < 100 ∧
      cntEntry (childMeta (.t2 sampleType2)) =
        (childMeta (.t2 sampleType2)).rtype ++ [usB] ++ pad2 0 ∧ (pad2 0).length = 2) :=
  ⟨⟨by decide, c5_cnt_directory_amended.1 _ (by decide)⟩,
   ⟨by decide, by decide,
    c5_cnt_directory_amended.2.1 (childMeta (.t2 sampleType2)) 0 (by decide) (by decide)⟩⟩

/-! ## Claim C10: the Type-2 weight field (eft_generator.py lines 158-166) -/

/-- The weight normalization of `build_eft_attempt`: `wgt =
int(data.get("2.029", "0"))`; on a parse failure or `wgt > 499` the field
becomes `"000"`, otherwise `str(wgt)` — with no zero-padding and no lower
bound. -/
def weightOf (raw : List Nat) : List Nat :=
  match pyIntParse? raw with
  | none => str2b "000"
  | some w => if w > 499 then str2b "000" else intStrB w

theorem intStrB_ne_nil (i : Int) : intStrB i ≠ [] := by
  cases i with
  | ofNat n => exact natStrB_ne_nil n
  | negSucc n => simp [intStrB]

theorem weightOf_ne_nil (raw : List Nat) : weightOf raw ≠ [] := by
  unfold weightOf
  split
  · decide
  · split
    · decide
    · exact intStrB_ne_nil _

theorem lookup_skip (k : List Nat) (l₁ l₂ : List (List Nat × PyVal))
    (h : ∀ e ∈ l₁, (k == e.1) = false) :
    List.lookup k (l₁ ++ l₂) = List.lookup k l₂ := by
  induction l₁ with
  | nil => rfl
  | cons e t ih =>
    rw [List.cons_append, List.lookup, h e (List.mem_cons_self e t)]
    exact ih (fun e' he' => h e' (List.mem_cons_of_mem e he'))

theorem pyIntParse?_no_sign (b : Nat) (t : List Nat) (hb : b ≠ 45 ∧ b ≠ 43) :
    pyIntParse? (b :: t) = (pyNatParse? (b :: t)).map (fun n => (n : Int)) := by
  unfold pyIntParse?
  split
  next rest heq => exact absurd (List.cons.inj heq).1 hb.1
  next rest heq => exact absurd (List.cons.inj heq).1 hb.2
  next => rfl

/-- C10 counterexample: the biographic input weight `42` lies in
`[000, 499]`, but the serialized `2.029` value is the two-character `42`,
not a 3-digit string. -/
theorem c10_weight_counterexample :
    weightOf (str2b "42") = str2b "42" ∧ (weightOf (str2b "42")).length ≠ 3 := by
  decide

/-- C10 as amended: the serialized `2.029` value is `str(int(weight))`
whenever `int` succeeds and the value is at most 499 (so 3-digit inputs in
`[100, 499]` round-trip, but shorter or negative inputs are *not*
zero-padded to 3 digits), and `"000"` when parsing fails or the value
exceeds 499 (no lower bound is enforced); the field always survives the
empty-field cleaning pass and is serialized. -/
theorem c10_weight_amended :
    (∀ (w : Int) (raw : List Nat), pyIntParse? raw = some w → w ≤ 499 →
      weightOf raw = intStrB w) ∧
    (∀ raw : List Nat,
      (pyIntParse? raw = none ∨ ∃ w, pyIntParse? raw = some w ∧ w > 499) →
      weightOf raw = str2b "000") ∧
    (∀ w : Nat, 100 ≤ w → w ≤ 499 → weightOf (natStrB w) = natStrB w) ∧
    (∀ (a : Type2Attrs) (l : PyVal) (raw : List Nat), a.extra = [] →
      a.weight = .str (weightOf raw) →
      (type2GetDict a l).lookup (str2b "2.029") = some (.str (weightOf raw))) := by
  refine ⟨?_, ?_, ?_, ?_⟩
  · intro w raw hp hle
    unfold weightOf
    rw [hp]
    show (if w > 499 then str2b "000" else intStrB w) = intStrB w
    rw [if_neg (by omega : ¬ w > 499)]
  · intro raw hp
    unfold weightOf
    rcases hp with hp | ⟨w, hp, hw⟩
    · rw [hp]
    · rw [hp]
      show (if w > 499 then str2b "000" else intStrB w) = str2b "000"
      rw [if_pos hw]
  · intro w h1 h2
    have hne := natStrB_ne_nil w
    obtain ⟨b, t, hbt⟩ : ∃ b t, natStrB w = b :: t := by
      cases hm : natStrB w with
      | nil => exact absurd hm hne
      | cons b t => exact ⟨b, t, rfl⟩
    have hb : 48 ≤ b ∧ b ≤ 57 :=
      digit_bytes_range w b (by rw [hbt]; exact List.mem_cons_self b t)
    unfold weightOf
    rw [hbt, pyIntParse?_no_sign b t ⟨by omega, by omega⟩, ← hbt, pyNatParse_natStrB]
    show (if ((w : Nat) : Int) > 499 then str2b "000" else intStrB ((w : Nat) : Int)) =
      natStrB w
    rw [if_neg (by omega : ¬ ((w : Nat) : Int) > 499)]
    rfl
  · intro a l raw hext hw
    unfold type2GetDict
    rw [hext]
    rw [show updAll (type2BaseDict a l) [] = type2BaseDict a l from rfl]
    rw [show type2BaseDict a l =
        [(str2b "2.001", l),
         (str2b "2.002", padIdc a.idc),
         (str2b "2.005", .str (str2b "N")),
         (str2b "2.016", a.ssn),
         (str2b "2.018", a.name),
         (str2b "2.019", a.aka),
         (str2b "2.020", a.pob),
         (str2b "2.021", a.ctz),
         (str2b "2.022", a.dob),
         (str2b "2.024", a.sex),
         (str2b "2.025", a.race),
         (str2b "2.027", a.height)] ++
        (str2b "2.029", a.weight) ::
        [(str2b "2.031", a.eye),
         (str2b "2.032", a.hair),
         (str2b "2.037", a.rsn),
         (str2b "2.038", a.dfp),
         (str2b "2.041", a.addr),
         (str2b "2.073", .str oriB),
         (str2b "2.084", a.amp)] from rfl]
    rw [show cleanDict = List.filter (fun e : List Nat × PyVal => keepVal e.2) from rfl,
      List.filter_append]
    have hkeep : keepVal a.weight = true := by
      rw [hw]
      show ((weightOf raw ≠ []) : Bool) = true
      simp [weightOf_ne_nil raw]
    rw [lookup_skip _ _ _ ?_]
    · rw [List.filter_cons, if_pos (by simpa using hkeep)]
      have heqq : (str2b "2.029" == str2b "2.029") = true := by decide
      rw [hw]
      simp [List.lookup, heqq]
    · intro e he
      have he' := List.mem_of_mem_filter he
      simp only [List.mem_cons, List.not_mem_nil, or_false] at he'
      rcases he' with rfl | rfl | rfl | rfl | rfl | rfl | rfl | rfl | rfl | rfl | rfl | rfl <;>
        rfl

theorem c10_weight_amended_witness :
    ((100 : Nat) ≤ 420 ∧ (420 : Nat) ≤ 499 ∧ weightOf (natStrB 420) = natStrB 420) ∧
    (pyIntParse? (str2b "abc") = none ∧ weightOf (str2b "abc") = str2b "000") :=
  ⟨⟨by decide, by decide, c10_weight_amended.2.2.1 420 (by decide) (by decide)⟩,
   ⟨by decide, c10_weight_amended.2.1 (str2b "abc") (Or.inl (by decide))⟩⟩

/-! ## Claim C7: the compression orchestrator (eft_generator.py lines 84-250)

`generate_eft` depends on the external codec and the filesystem only
through the size of the file each attempt produces, so those collaborators
are abstracted as a `build` oracle mapping an attempt (RAW, or WSQ at a
bitrate) to the byte size of the assembled file, or `none` when the
attempt raises. -/

/-- Bitrates are opaque labels handed to the codec adapter; the
orchestrator never computes with them, so they are represented in
hundredths of a bit per pixel (3.5 → 350, …, 0.75 → 75). -/
inductive CompAttempt where
  | raw
  | wsq (rate : Nat)
deriving DecidableEq

/-- The descending bitrate ladder `[3.5, 3.0, 2.5, 2.0, 1.5, 1.0, 0.75]`
(eft_generator.py line 103), in hundredths. -/
def bitrates : List Nat := [350, 300, 250, 200, 150, 100, 75]

/-- The size check `os.path.getsize(path) / (1024*1024) < 11.8`
(eft_generator.py lines 228, 242), made exact: `bytes / 2^20 < 59/5 ↔
5 * bytes < 59 * 2^20 = 61865984`.  Python compares IEEE doubles, but for
integer byte counts below 2^53 the division by 2^20 is exact, and no
integer byte count divided by 2^20 falls between 59/5 and its double
rounding, so this integer comparison coincides with the float one. -/
def sizeFits (bytes : Nat) : Bool := 5 * bytes < 61865984

/-- The WSQ retry loop (eft_generator.py lines 235-246) plus the fallback
return (lines 248-250).  `fp` models the `final_path` variable: the last
attempt whose build succeeded.  A fitting attempt returns immediately;
after ladder exhaustion the code returns `final_path` — the most recent
build — without comparing sizes. -/
def runLadder (build : CompAttempt → Option Nat) :
    List Nat → Option CompAttempt → Option CompAttempt
  | [], fp => fp
  | r :: rs, fp =>
    match build (.wsq r) with
    | none => runLadder build rs fp
    | some sz => if sizeFits sz then some (.wsq r) else runLadder build rs (some (.wsq r))

/-- `generate_eft`'s compression strategy (eft_generator.py lines
218-250): try RAW; if it fits return it, else walk the WSQ ladder.
(`verify_and_return` only warns and passes the path through.) -/
def generateSelect (build : CompAttempt → Option Nat) : Option CompAttempt :=
  match build .raw with
  | none => runLadder build bitrates none
  | some sz => if sizeFits sz then some .raw else runLadder build bitrates (some .raw)

/-- The attempts in the order the orchestrator tries them. -/
def attemptOrder : List CompAttempt := .raw :: bitrates.map CompAttempt.wsq

/-- The `final_path` accumulation: the last attempt in `order` whose build
succeeded. -/
def lastProduced (build : CompAttempt → Option Nat) (order : List CompAttempt) :
    Option CompAttempt :=
  order.foldl (fun acc a => if (build a).isSome then some a else acc) none

/-- A build oracle on which the orchestrator's fallback differs from
"smallest file": every attempt is oversized, the WSQ 3.5 attempt is the
smallest, but the lowest-bitrate 0.75 attempt (the last one built) is what
gets returned. -/
def cxBuild : CompAttempt → Option Nat
  | .raw => some 99000000
  | .wsq r => if r = 350 then some 12400000 else some 12600000

/-- C7 counterexample: with every attempt oversized, the orchestrator
returns the 0.75-bitrate file (the last produced), although the 3.5
attempt produced a strictly smaller file — it does not return the
smallest file across all attempts. -/
theorem c7_returns_last_not_smallest :
    generateSelect cxBuild = some (.wsq 75) ∧
    cxBuild (.wsq 350) = some 12400000 ∧
    cxBuild (.wsq 75) = some 12600000 ∧
    (12400000 : Nat) < 12600000 ∧ (350 : Nat) ≠ 75 ∧
    sizeFits 12400000 = false := by
  refine ⟨by decide, by decide, by decide, by decide, by decide, by decide⟩

theorem runLadder_no_fit (build : CompAttempt → Option Nat)
    (hnofit : ∀ a sz, build a = some sz → sizeFits sz = false) :
    ∀ (rs : List Nat) (fp : Option CompAttempt),
      runLadder build rs fp =
        rs.foldl (fun acc r => if (build (.wsq r)).isSome then some (.wsq r) else acc) fp := by
  intro rs
  induction rs with
  | nil => intro fp; rfl
  | cons r rs' ih =>
    intro fp
    cases hb : build (.wsq r) with
    | none =>
      rw [List.foldl_cons]
      calc runLadder build (r :: rs') fp = runLadder build rs' fp := by
            rw [runLadder, hb]
        _ = rs'.foldl (fun acc r => if (build (.wsq r)).isSome then some (.wsq r) else acc)
              fp := ih fp
        _ = rs'.foldl (fun acc r => if (build (.wsq r)).isSome then some (.wsq r) else acc)
              (if (build (.wsq r)).isSome then some (.wsq r) else fp) := by rw [hb]; rfl
    | some sz =>
      rw [List.foldl_cons]
      calc runLadder build (r :: rs') fp
          = runLadder build rs' (some (.wsq r)) := by
            rw [runLadder, hb]
            show (if sizeFits sz = true then some (.wsq r)
                  else runLadder build rs' (some (.wsq r))) =
              runLadder build rs' (some (.wsq r))
            rw [hnofit _ _ hb, if_neg (fun h => Bool.false_ne_true h)]
        _ = rs'.foldl (fun acc r => if (build (.wsq r)).isSome then some (.wsq r) else acc)
              (some (.wsq r)) := ih _
        _ = rs'.foldl (fun acc r => if (build (.wsq r)).isSome then some (.wsq r) else acc)
              (if (build (.wsq r)).isSome then some (.wsq r) else fp) := by rw [hb]; rfl

/-- C7 as amended: when every produced file is over the ceiling, the
orchestrator still returns a file (reporting a warning, not failing), but
it is the *last* file produced — the final bitrate whose build succeeded —
not the smallest one across all attempts. -/
theorem c7_oversize_returns_last_produced (build : CompAttempt → Option Nat)
    (hnofit : ∀ a sz, build a = some sz → sizeFits sz = false) :
    generateSelect build = lastProduced build attemptOrder := by
  unfold lastProduced attemptOrder
  cases hb : build .raw with
  | none =>
    rw [List.foldl_cons, List.foldl_map]
    calc generateSelect build = runLadder build bitrates none := by
          rw [generateSelect, hb]
      _ = bitrates.foldl
            (fun acc r => if (build (.wsq r)).isSome then some (.wsq r) else acc)
            none := runLadder_no_fit build hnofit bitrates none
      _ = bitrates.foldl
            (fun acc r => if (build (.wsq r)).isSome then some (.wsq r) else acc)
            (if (build .raw).isSome then some .raw else none) := by rw [hb]; rfl
  | some sz =>
    rw [List.foldl_cons, List.foldl_map]
    calc generateSelect build = runLadder build bitrates (some .raw) := by
          rw [generateSelect, hb]
          show (if sizeFits sz = true then some CompAttempt.raw
                else runLadder build bitrates (some .raw)) =
            runLadder build bitrates (some .raw)
          rw [hnofit _ _ hb, if_neg (fun h => Bool.false_ne_true h)]
      _ = bitrates.foldl
            (fun acc r => if (build (.wsq r)).isSome then some (.wsq r) else acc)
            (some .raw) := runLadder_no_fit build hnofit bitrates (some .raw)
      _ = bitrates.foldl
            (fun acc r => if (build (.wsq r)).isSome then some (.wsq r) else acc)
            (if (build .raw).isSome then some .raw else none) := by rw [hb]; rfl

theorem c7_oversize_returns_last_produced_witness :
    (∀ a sz, (fun _ : CompAttempt => some 20000000) a = some sz → sizeFits sz = false) ∧
    generateSelect (fun _ => some 20000000) =
      lastProduced (fun _ => some 20000000) attemptOrder :=
  ⟨fun _ sz h => by rw [← Option.some.inj h]; decide,
   c7_oversize_returns_last_produced (fun _ => some 20000000)
     (fun _ sz h => by rw [← Option.some.inj h]; decide)⟩

/-! ## The decoder (eft_parser.py)

Python `bytes` indexing and slicing semantics: slices clamp, negative
indices count from the end, and `find`/`index` return the first position
at or after the start bound. -/

/-- Index of the first occurrence of byte `b`, if any. -/
def pyFind (b : Nat) : List Nat → Option Nat
  | [] => none
  | c :: rest => if c = b then some 0 else (pyFind b rest).map (· + 1)

/-- Normalize a Python slice bound: negative counts from the end; both
directions clamp to `[0, len]`. -/
def pyIdx (len : Nat) (i : Int) : Nat :=
  if i < 0 then (len + i).toNat else min i.toNat len

/-- `data[a:b]`. -/
def pySlice (l : List Nat) (a b : Int) : List Nat :=
  (l.take (pyIdx l.length b)).drop (pyIdx l.length a)

/-- `data.find(b, s)`: absolute index of the first occurrence at or after
`s`, `None` for Python's `-1`. -/
def pyFindFrom (b : Nat) (l : List Nat) (s : Int) : Option Nat :=
  (pyFind b (l.drop (pyIdx l.length s))).map (· + pyIdx l.length s)

/-- `data.index(b, s, e)` as an `Option`: first occurrence within
`[s, e)`. -/
def pyFindFromTo (b : Nat) (l : List Nat) (s e : Int) : Option Nat :=
  (pyFind b (pySlice l s e)).map (· + pyIdx l.length s)

/-- `.decode('ascii')` (strict): succeeds iff every byte is ASCII; the
code points then equal the bytes. -/
def asciiDecode? (l : List Nat) : Option (List Nat) :=
  if l.all (fun b => b < 128) then some l else none

/-- `.decode('ascii', errors='ignore')`: drop non-ASCII bytes. -/
def asciiIgnore (l : List Nat) : List Nat := l.filter (fun b => b < 128)

/-- `.decode('utf-8', errors='replace')`: ASCII bytes decode to
themselves; anything else is modelled as the replacement character (a
multi-byte UTF-8 sequence would decode differently, but no claim inspects
such a value). -/
def utf8Replace (l : List Nat) : List Nat :=
  l.map (fun b => if b < 128 then b else 0xFFFD)

/-- Strip one trailing `FS` if present (eft_parser.py lines 150-152). -/
def stripFS (l : List Nat) : List Nat :=
  if l.getLast? = some fsB then l.dropLast else l

/-- `EFTParser._parse_field_entry` (eft_parser.py lines 244-255): split at
the first `:`; ASCII-decode the key (failure is caught and drops the
field); a `*.999` key keeps raw bytes, anything else decodes as UTF-8 with
replacement. -/
def parseFieldEntry (data : List Nat) : Option (List Nat × PyVal) :=
  match pyFind colonB data with
  | none => none
  | some i =>
    match asciiDecode? (data.take i) with
    | none => none
    | some key =>
      let rest := data.drop (i + 1)
      if (str2b ".999").isSuffixOf key then some (key, .bytes rest)
      else some (key, .str (utf8Replace rest))

def isDigitB (b : Nat) : Bool := 48 ≤ b ∧ b ≤ 57

/-- The `valid_tag` check of the binary-record walk (eft_parser.py lines
175-184): ASCII-decodable, containing `.`, splitting into exactly two
all-digit parts; returns the field id. -/
def validTag? (tagC : List Nat) : Option (List Nat) :=
  match asciiDecode? tagC with
  | none => none
  | some s =>
    if dotB ∈ s then
      match splitOnB dotB s with
      | [p0, p1] =>
        if p0 ≠ [] ∧ p0.all isDigitB ∧ p1 ≠ [] ∧ p1.all isDigitB then some p1 else none
      | _ => none
    else none

/-- The field walk over a binary tagged record's body (eft_parser.py lines
162-206), on the FS-stripped record bytes `pd`.  `curr` advances at every
step, so the `pd.length + 1` fuel the caller passes is never exhausted. -/
def binWalk (pd : List Nat) : Nat → Nat → List (List Nat × PyVal) → List (List Nat × PyVal)
  | 0, _, fields => fields
  | fuel + 1, curr, fields =>
    if curr < pd.length then
      match pyFindFrom colonB pd (curr : Int) with
      | none => fields
      | some cp =>
        let tagC := pySlice pd (curr : Int) (cp : Int)
        match validTag? tagC with
        | some fid =>
          if fid = str2b "999" then
            updKey fields tagC (.bytes (pd.drop (cp + 1)))
          else
            let ng := (pyFindFrom gsB pd (cp : Int)).getD pd.length
            binWalk pd fuel (ng + 1)
              (updKey fields tagC (.str (utf8Replace (pySlice pd ((cp : Int) + 1) (ng : Int)))))
        | none => binWalk pd fuel (cp + 1) fields
    else fields

/-- `EFTParser._parse_record` (eft_parser.py lines 128-207). -/
def parseRecord (data : List Nat) : List (List Nat × PyVal) :=
  match pyFind gsB data with
  | none =>
    let content := stripFS data
    match parseFieldEntry content with
    | some (k, v) => if k ≠ [] then [(k, v)] else []
    | none => []
  | some gs =>
    let firstField := asciiIgnore (data.take gs)
    let recType := firstField.takeWhile (fun b => b ≠ dotB)
    let isBin := recType ∈ [str2b "4", str2b "7", str2b "8", str2b "10", str2b "13",
      str2b "14", str2b "15", str2b "16", str2b "17"]
    let pd := stripFS data
    if isBin then binWalk pd (pd.length + 1) 0 []
    else
      (splitOnB gsB pd).foldl (fun fs p =>
        match parseFieldEntry p with
        | some (k, v) => if k ≠ [] then updKey fs k v else fs
        | none => fs) []

/-- `EFTParser._parse_binary_type4` (eft_parser.py lines 209-242): unpack
the 18-byte header into text pseudo-tags and keep the rest as `4.999`. -/
def parseBinaryType4 (data : List Nat) : List (List Nat × PyVal) :=
  if data.length < 18 then []
  else
    match data with
    | _b0 :: _b1 :: _b2 :: _b3 :: idc :: imp :: f1 :: _f2 :: _f3 :: _f4 :: _f5 :: _f6 ::
        isr :: h0 :: h1 :: v0 :: v1 :: cga :: rest =>
      [(str2b "4.002", .str (natStrB idc)),
       (str2b "4.003", .str (natStrB imp)),
       (str2b "4.004", .str (natStrB f1)),
       (str2b "4.005", .str (natStrB isr)),
       (str2b "4.006", .str (natStrB (h0 * 256 + h1))),
       (str2b "4.007", .str (natStrB (v0 * 256 + v1))),
       (str2b "4.008", .str (natStrB cga)),
       (str2b "4.999", .bytes rest)]
    | _ => []

/-- The record-framing loop of `EFTParser._parse` (eft_parser.py lines
28-125), with an explicit iteration bound: `none` means the bound was
exhausted (the loop is still running), `some recs` that the loop finished
(EOF reached, or one of its `break` statements — which in Python return
the records parsed so far, raising nothing). -/
def parseLoop (data : List Nat) :
    Nat → Int → List (List (List Nat × PyVal)) → Option (List (List (List Nat × PyVal)))
  | 0, _, _ => none
  | fuel + 1, offset, recs =>
    if offset < (data.length : Int) then
      match
        (match pyFindFrom colonB data offset with
         | none => none
         | some fc =>
           if asciiIgnore (pySlice data offset (fc : Int)) = str2b "1.001" then
             match pyFindFrom fsB data offset with
             | none => some none
             | some fsIdx => some (some fsIdx)
           else none : Option (Option Nat))
      with
      | some none => some recs
      | some (some fsIdx) =>
        let rlen : Int := (fsIdx : Int) - offset + 1
        parseLoop data fuel (offset + rlen)
          (recs ++ [parseRecord (pySlice data offset (offset + rlen))])
      | none =>
        let searchLimit : Int := min 50 ((data.length : Int) - offset)
        match
          (match pyFindFromTo gsB data offset (offset + searchLimit) with
           | none => none
           | some gi =>
             match asciiDecode? (pySlice data offset (gi : Int)) with
             | none => none
             | some ff =>
               match splitOnB colonB ff with
               | [tag, lenStr] => if dotB ∈ tag then pyIntParse? lenStr else none
               | _ => none : Option Int)
        with
        | some rl0 =>
          let rl : Int :=
            if offset + rl0 > (data.length : Int) then (data.length : Int) - offset else rl0
          parseLoop data fuel (offset + rl)
            (recs ++ [parseRecord (pySlice data offset (offset + rl))])
        | none =>
          if offset + 4 ≤ (data.length : Int) then
            let binLen : Nat := readU32be (pySlice data offset (offset + 4))
            if 18 ≤ binLen ∧ (binLen : Int) ≤ (data.length : Int) - offset + 100 then
              parseLoop data fuel (offset + (binLen : Int))
                (recs ++ [parseBinaryType4 (pySlice data offset (offset + (binLen : Int)))])
            else some recs
          else some recs
    else some recs

/-- `EFTParser._parse` on a whole file. -/
def parseEFT (data : List Nat) (fuel : Nat) :
    Option (List (List (List Nat × PyVal))) :=
  parseLoop data fuel 0 []

/-! ## Claim C6: parser termination -/

/-- The 8-byte input `2.001:0<GS>`: a tagged record whose declared length
field is 0. -/
def c6input : List Nat := str2b "2.001:0" ++ [gsB]

/-- C6 (refuted — code bug): on `c6input` the framing loop accepts the
tagged record, takes `record_len = int("0") = 0`, appends an empty parsed
record and advances the offset by zero, forever.  For every iteration
bound the loop is still running; no bound makes it reach EOF or an
abort. -/
theorem c6_parser_loops_forever_on_zero_length :
    ∀ (fuel : Nat) (recs : List (List (List Nat × PyVal))),
      parseLoop c6input fuel 0 recs = none := by
  intro fuel
  induction fuel with
  | zero => intro recs; rfl
  | succ f ih => intro recs; exact ih (recs ++ [[]])

/-! ## Claim C9: no Type-1 first-record check -/

/-- A well-formed single Type-2 record file: `2.001:17<GS>2.005:N<FS>`
(17 bytes, matching its declared length). -/
def c9input : List Nat := str2b "2.001:17" ++ [gsB] ++ str2b "2.005:N" ++ [fsB]

/-- A file of two Type-2 records, no Type-1 anywhere. -/
def c9input2 : List Nat := c9input ++ str2b "2.001:17" ++ [gsB] ++ str2b "2.005:Y" ++ [fsB]

/-- C9 counterexample: the parser does not reject a file whose first
record is not Type-1.  On a file consisting of a single well-formed
Type-2 record it terminates normally and returns that record — there is
no `ParseFailure`; `_parse` raises nothing and has no first-record type
check. -/
theorem c9_accepts_type2_first_counterexample :
    parseEFT c9input 3 =
      some [[(str2b "2.001", .str (str2b "17")), (str2b "2.005", .str (str2b "N"))]] ∧
    (∀ k ∈ [[(str2b "2.001", PyVal.str (str2b "17")),
        (str2b "2.005", PyVal.str (str2b "N"))]].head!.map Prod.fst,
      k.take 2 = str2b "2.") := by
  exact ⟨by decide, by decide⟩

/-- C9 as amended: the parser performs no first-record type check; a file
whose records are all well-formed non-Type-1 tagged records parses
successfully into the corresponding record list, in file order. -/
theorem c9_accepts_type2_first_amended :
    parseEFT c9input2 5 =
      some [[(str2b "2.001", .str (str2b "17")), (str2b "2.005", .str (str2b "N"))],
            [(str2b "2.001", .str (str2b "17")), (str2b "2.005", .str (str2b "Y"))]] := by
  decide


/-! ## Claim C2: separator bytes inside the Type-14 image payload

Helper facts about `pyFind`, `pySlice` and `binWalk` on a record of the
shape `field₁ GS field₂ GS … GS 14.999:image`. -/

theorem pyFind_not_mem {b : Nat} {l : List Nat} (h : b ∉ l) : pyFind b l = none := by
  induction l with
  | nil => rfl
  | cons c t ih =>
    simp only [List.mem_cons] at h
    push_neg at h
    rw [pyFind, if_neg (fun hx => h.1 hx.symm), ih h.2]
    rfl

theorem pyFind_first {b : Nat} {p q : List Nat} (h : b ∉ p) :
    pyFind b (p ++ b :: q) = some p.length := by
  induction p with
  | nil => simp [pyFind]
  | cons c t ih =>
    simp only [List.mem_cons] at h
    push_neg at h
    rw [List.cons_append, pyFind, if_neg (fun hx => h.1 hx.symm), ih h.2]
    rfl

theorem take_shift (p q : List Nat) (c : Nat) :
    (p ++ q).take (p.length + c) = p ++ q.take c := by
  induction p with
  | nil => simp
  | cons x t ih => simp [List.take, Nat.succ_add, ih]

theorem drop_shift (p q : List Nat) (c : Nat) :
    (p ++ q).drop (p.length + c) = q.drop c := by
  induction p with
  | nil => simp
  | cons x t ih => simp [List.drop, Nat.succ_add, ih]

theorem pyIdx_natCast (len : Nat) (n : Nat) (h : n ≤ len) : pyIdx len (n : Int) = n := by
  unfold pyIdx
  rw [if_neg (by omega)]
  simp
  omega

theorem pyFindFrom_nat (b : Nat) (l : List Nat) (n : Nat) (h : n ≤ l.length) :
    pyFindFrom b l (n : Int) = (pyFind b (l.drop n)).map (· + n) := by
  unfold pyFindFrom
  rw [pyIdx_natCast _ _ h]

theorem pySlice_nat (l : List Nat) (a b : Nat) (ha : a ≤ l.length) (hb : b ≤ l.length) :
    pySlice l (a : Int) (b : Int) = (l.take b).drop a := by
  unfold pySlice
  rw [pyIdx_natCast _ _ ha, pyIdx_natCast _ _ hb]

theorem validTag?_ne_nil {k fid : List Nat} (h : validTag? k = some fid) : k ≠ [] := by
  intro hx
  subst hx
  simp [validTag?, asciiDecode?, splitOnB, dotB] at h

theorem lookup_map_upd (k : List Nat) (v : PyVal) (d : List (List Nat × PyVal))
    (h : k ∈ d.map Prod.fst) :
    List.lookup k (d.map (fun e => if e.1 = k then (e.1, v) else e)) = some v := by
  induction d with
  | nil => simp at h
  | cons e t ih =>
    by_cases he : e.1 = k
    · rw [List.map_cons, if_pos he, List.lookup,
        show (k == e.1) = true from by rw [he]; exact beq_self_eq_true k]
    · simp only [List.map_cons, List.mem_cons] at h
      rcases h with h | h
      · exact absurd h.symm he
      · rw [List.map_cons, if_neg he, List.lookup,
          show (k == e.1) = false from beq_eq_false_iff_ne.mpr (fun hx => he hx.symm)]
        exact ih h

theorem lookup_updKey_self (d : List (List Nat × PyVal)) (k : List Nat) (v : PyVal) :
    List.lookup k (updKey d k v) = some v := by
  unfold updKey
  by_cases hm : k ∈ d.map Prod.fst
  · rw [if_pos hm]
    exact lookup_map_upd k v d hm
  · rw [if_neg hm, lookup_skip k d [(k, v)] ?_]
    · rw [List.lookup, beq_self_eq_true k]
    · intro e he
      refine beq_eq_false_iff_ne.mpr (fun hx => hm ?_)
      rw [hx]
      exact List.mem_map_of_mem Prod.fst he


/-- The serialized bytes of the non-final fields of a binary tagged
record: each `KEY:VALUE` chunk followed by its `GS` separator. -/
def flatGS : List (List Nat × PyVal) → List Nat
  | [] => []
  | e :: rest => e.1 ++ [colonB] ++ valBytes e.2 ++ [gsB] ++ flatGS rest

/-- The fields dict accumulated by the walk over those fields (each
stored as its UTF-8-with-replacement decoding). -/
def walkFields (fields es : List (List Nat × PyVal)) : List (List Nat × PyVal) :=
  es.foldl (fun fs e => updKey fs e.1 (.str (utf8Replace (valBytes e.2)))) fields

/-- A non-image field the walk can step over: a valid non-999 tag free of
`:` and `GS`, and a value free of `GS`. -/
def GoodEntry (e : List Nat × PyVal) : Prop :=
  (∃ fid, validTag? e.1 = some fid ∧ fid ≠ str2b "999") ∧
  colonB ∉ e.1 ∧ gsB ∉ e.1 ∧ ∀ b ∈ valBytes e.2, b ≠ gsB

theorem intCast_add_one (n : Nat) : ((n : Int) + 1) = ((n + 1 : Nat) : Int) := by
  push_cast
  ring

/-- The core of C2: on a record body of the shape
`field₁ GS … fieldₙ GS 14.999:image`, the walk of `_parse_record` steps
over each benign field and then stores the entire remainder after
`14.999:` — the raw image bytes, whatever separators they contain — under
the 999 tag. -/
theorem binWalk_spec (k999 dat : List Nat)
    (hvalid : validTag? k999 = some (str2b "999")) (hcol : colonB ∉ k999) :
    ∀ (es : List (List Nat × PyVal)) (p : List Nat) (fuel : Nat)
      (fields : List (List Nat × PyVal)),
      (∀ e ∈ es, GoodEntry e) → es.length + 1 ≤ fuel →
      binWalk (p ++ (flatGS es ++ (k999 ++ [colonB] ++ dat))) fuel p.length fields =
        updKey (walkFields fields es) k999 (.bytes dat) := by
  intro es
  induction es with
  | nil =>
    intro p fuel fields _ hfuel
    obtain ⟨f, rfl⟩ : ∃ f, fuel = f + 1 := ⟨fuel - 1, by omega⟩
    have hk : k999 ≠ [] := validTag?_ne_nil hvalid
    have hkpos : 0 < k999.length := List.length_pos.mpr hk
    rw [show flatGS [] ++ (k999 ++ [colonB] ++ dat) = k999 ++ [colonB] ++ dat from by
      simp [flatGS]]
    have hlt : p.length < (p ++ (k999 ++ [colonB] ++ dat)).length := by
      simp only [List.length_append, List.length_cons, List.length_nil]
      omega
    rw [binWalk, if_pos hlt]
    have hfind : pyFindFrom colonB (p ++ (k999 ++ [colonB] ++ dat)) (p.length : Int) =
        some (k999.length + p.length) := by
      rw [pyFindFrom_nat _ _ _ (by simp), List.drop_left]
      rw [show k999 ++ [colonB] ++ dat = k999 ++ colonB :: dat from by simp]
      rw [pyFind_first hcol]
      rfl
    simp only [hfind]
    have htag : pySlice (p ++ (k999 ++ [colonB] ++ dat)) (p.length : Int)
        ((k999.length + p.length : Nat) : Int) = k999 := by
      rw [pySlice_nat _ _ _ (by simp) (by simp only [List.length_append, List.length_cons, List.length_nil]; omega)]
      rw [show k999.length + p.length = p.length + k999.length from by omega]
      rw [show p ++ (k999 ++ [colonB] ++ dat) = p ++ (k999 ++ ([colonB] ++ dat)) from by simp]
      rw [take_shift, List.take_left, List.drop_left]
    simp only [htag, hvalid]
    rw [if_pos trivial]
    have hdrop : (p ++ (k999 ++ [colonB] ++ dat)).drop (k999.length + p.length + 1) = dat := by
      rw [show p ++ (k999 ++ [colonB] ++ dat) = (p ++ k999 ++ [colonB]) ++ dat from by simp]
      rw [show k999.length + p.length + 1 = (p ++ k999 ++ [colonB]).length from by
        simp only [List.length_append, List.length_cons, List.length_nil]
        omega]
      exact List.drop_left _ _
    rw [hdrop]
    rfl
  | cons e es' ih =>
    intro p fuel fields hgood hfuel
    obtain ⟨f, rfl⟩ : ∃ f, fuel = f + 1 := ⟨fuel - 1, by omega⟩
    obtain ⟨⟨fid, hfid, hfid999⟩, hcolk, hgsk, hgsv⟩ := hgood e (List.mem_cons_self e es')
    have hke : e.1 ≠ [] := validTag?_ne_nil hfid
    have hkpos : 0 < e.1.length := List.length_pos.mpr hke
    rw [show flatGS (e :: es') ++ (k999 ++ [colonB] ++ dat) =
        e.1 ++ [colonB] ++ valBytes e.2 ++ [gsB] ++
          (flatGS es' ++ (k999 ++ [colonB] ++ dat)) from by simp [flatGS]]
    set v := valBytes e.2 with hv
    set rest := flatGS es' ++ (k999 ++ [colonB] ++ dat) with hrest
    have hlt : p.length < (p ++ (e.1 ++ [colonB] ++ v ++ [gsB] ++ rest)).length := by
      simp only [List.length_append, List.length_cons, List.length_nil]
      omega
    rw [binWalk, if_pos hlt]
    have hfind : pyFindFrom colonB (p ++ (e.1 ++ [colonB] ++ v ++ [gsB] ++ rest))
        (p.length : Int) = some (e.1.length + p.length) := by
      rw [pyFindFrom_nat _ _ _ (by simp), List.drop_left]
      rw [show e.1 ++ [colonB] ++ v ++ [gsB] ++ rest =
          e.1 ++ colonB :: (v ++ [gsB] ++ rest) from by simp]
      rw [pyFind_first hcolk]
      rfl
    simp only [hfind]
    have htag : pySlice (p ++ (e.1 ++ [colonB] ++ v ++ [gsB] ++ rest)) (p.length : Int)
        ((e.1.length + p.length : Nat) : Int) = e.1 := by
      rw [pySlice_nat _ _ _ (by simp) (by simp only [List.length_append, List.length_cons, List.length_nil]; omega)]
      rw [show e.1.length + p.length = p.length + e.1.length from by omega]
      rw [show p ++ (e.1 ++ [colonB] ++ v ++ [gsB] ++ rest) =
          p ++ (e.1 ++ ([colonB] ++ v ++ [gsB] ++ rest)) from by simp]
      rw [take_shift, List.take_left, List.drop_left]
    simp only [htag, hfid]
    rw [if_neg hfid999]
    have hng : pyFindFrom gsB (p ++ (e.1 ++ [colonB] ++ v ++ [gsB] ++ rest))
        ((e.1.length + p.length : Nat) : Int) =
        some (v.length + 1 + (e.1.length + p.length)) := by
      rw [pyFindFrom_nat _ _ _ (by simp only [List.length_append, List.length_cons, List.length_nil]; omega)]
      rw [show e.1.length + p.length = (p ++ e.1).length from by
        simp only [List.length_append, List.length_cons, List.length_nil]
        omega]
      rw [show p ++ (e.1 ++ [colonB] ++ v ++ [gsB] ++ rest) =
          (p ++ e.1) ++ ((colonB :: v) ++ gsB :: rest) from by simp]
      rw [List.drop_left]
      rw [pyFind_first (by
        intro hx
        rcases List.mem_cons.mp hx with hx | hx
        · exact absurd hx.symm (by decide)
        · exact hgsv gsB (by rw [hv] at hx; exact hx) rfl)]
      rw [show (p ++ e.1).length = e.1.length + p.length from by
        simp only [List.length_append, List.length_cons, List.length_nil]
        omega]
      rfl
    simp only [hng, Option.getD_some]
    have hval : pySlice (p ++ (e.1 ++ [colonB] ++ v ++ [gsB] ++ rest))
        (((e.1.length + p.length : Nat) : Int) + 1)
        ((v.length + 1 + (e.1.length + p.length) : Nat) : Int) = v := by
      rw [intCast_add_one]
      rw [pySlice_nat _ _ _ (by simp only [List.length_append, List.length_cons, List.length_nil]; omega)
        (by simp only [List.length_append, List.length_cons, List.length_nil]; omega)]
      rw [show v.length + 1 + (e.1.length + p.length) =
          (p ++ e.1 ++ [colonB]).length + v.length from by
        simp only [List.length_append, List.length_cons, List.length_nil]
        omega]
      rw [show p ++ (e.1 ++ [colonB] ++ v ++ [gsB] ++ rest) =
          (p ++ e.1 ++ [colonB]) ++ (v ++ ([gsB] ++ rest)) from by simp]
      rw [take_shift, List.take_left]
      rw [show e.1.length + p.length + 1 = (p ++ e.1 ++ [colonB]).length from by
        simp only [List.length_append, List.length_cons, List.length_nil]
        omega]
      exact List.drop_left _ _
    rw [hval]
    rw [show v.length + 1 + (e.1.length + p.length) + 1 =
        (p ++ (e.1 ++ [colonB] ++ v ++ [gsB])).length from by
      simp only [List.length_append, List.length_cons, List.length_nil]
      omega]
    rw [show p ++ (e.1 ++ [colonB] ++ v ++ [gsB] ++ rest) =
        (p ++ (e.1 ++ [colonB] ++ v ++ [gsB])) ++ rest from by simp]
    rw [hrest]
    rw [ih (p ++ (e.1 ++ [colonB] ++ v ++ [gsB])) f
      (updKey fields e.1 (.str (utf8Replace v)))
      (fun x hx => hgood x (List.mem_cons_of_mem e hx))
      (by simp at hfuel ⊢; omega)]
    rfl


/-- "Value contains no `GS` byte" — the benignity condition C2 needs on
the non-image fields. -/
def noGS (v : PyVal) : Prop := ∀ b ∈ valBytes v, b ≠ gsB

theorem joinRS_noGS (parts : List (List Nat)) (h : ∀ s ∈ parts, ∀ b ∈ s, b ≠ gsB) :
    ∀ b ∈ joinRS parts, b ≠ gsB := by
  induction parts with
  | nil => intro b hb; simp [joinRS] at hb
  | cons s t ih =>
    cases t with
    | nil =>
      intro b hb
      exact h s (List.mem_cons_self s []) b hb
    | cons s2 t2 =>
      intro b hb
      rw [show joinRS (s :: s2 :: t2) = s ++ [rsB] ++ joinRS (s2 :: t2) from rfl] at hb
      simp only [List.append_assoc, List.mem_append, List.mem_cons, List.not_mem_nil,
        or_false] at hb
      rcases hb with hb | hb | hb
      · exact h s (List.mem_cons_self s _) b hb
      · subst hb; decide
      · exact ih (fun x hx => h x (List.mem_cons_of_mem s hx)) b hb

/-- The solver's length value renders as decimal digits. -/
theorem valBytes_getLen_digits (g : PyVal → List (List Nat × PyVal)) :
    ∀ b ∈ valBytes (getLen g), 48 ≤ b ∧ b ≤ 57 := by
  intro b hb
  rcases getLen_shape g with h | ⟨c, h⟩
  · rw [h] at hb
    rw [show valBytes (.str (str2b "1")) = [49] from rfl] at hb
    simp at hb
    omega
  · rw [h] at hb
    rw [show valBytes (.int (c : Int)) = natStrB c from rfl] at hb
    exact digit_bytes_range c b hb

theorem noGS_getLen (g : PyVal → List (List Nat × PyVal)) : noGS (getLen g) := by
  intro b hb
  have := valBytes_getLen_digits g b hb
  show b ≠ 29
  omega

/-- The Type-14 dict is already in ascending tag order, so `sorted`
leaves it unchanged. -/
theorem type14_sorted (a : Type14Attrs) (l : PyVal) :
    List.insertionSort entryLe (type14GetDict a l) = type14GetDict a l := by
  apply List.Sorted.insertionSort_eq
  have hmap : ((type14GetDict a l).map Prod.fst).Pairwise
      (fun k1 k2 => keyLe (sortKey k1) (sortKey k2)) := by
    rw [show (type14GetDict a l).map Prod.fst =
        [str2b "14.001", str2b "14.002", str2b "14.003", str2b "14.004", str2b "14.005",
         str2b "14.006", str2b "14.007", str2b "14.008", str2b "14.009", str2b "14.010",
         str2b "14.011", str2b "14.012", str2b "14.013", str2b "14.021", str2b "14.023",
         str2b "14.024", str2b "14.999"] from rfl]
    decide
  have h2 := List.pairwise_map.mp hmap
  exact h2

/-- `emitEntries` on entries ending with the image field: the GS-chunked
fields followed by the final entry and the terminating FS. -/
theorem emitEntries_concat (es : List (List Nat × PyVal)) (k : List Nat) (v : PyVal) :
    emitEntries (es ++ [(k, v)]) = flatGS es ++ (entryBytes k v ++ [fsB]) := by
  induction es with
  | nil => simp [emitEntries, flatGS]
  | cons e t ih =>
    cases t with
    | nil =>
      obtain ⟨k1, v1⟩ := e
      simp [emitEntries, flatGS, entryBytes]
    | cons e2 t2 =>
      obtain ⟨k1, v1⟩ := e
      rw [show ((k1, v1) :: e2 :: t2) ++ [(k, v)] = (k1, v1) :: ((e2 :: t2) ++ [(k, v)])
          from rfl]
      rw [show emitEntries ((k1, v1) :: ((e2 :: t2) ++ [(k, v)])) =
          entryBytes k1 v1 ++ [gsB] ++ emitEntries ((e2 :: t2) ++ [(k, v)]) from by
        cases t2 <;> rfl]
      rw [ih]
      simp [flatGS, entryBytes]


/-- The non-image fields of the Type-14 dict, in serialization order. -/
def type14Front (a : Type14Attrs) (l : PyVal) : List (List Nat × PyVal) :=
  [(str2b "14.001", l),
   (str2b "14.002", a.idc),
   (str2b "14.003", a.imp),
   (str2b "14.004", a.src),
   (str2b "14.005", a.date),
   (str2b "14.006", a.hll),
   (str2b "14.007", a.vll),
   (str2b "14.008", a.scu),
   (str2b "14.009", a.thps),
   (str2b "14.010", a.tvps),
   (str2b "14.011", a.cga),
   (str2b "14.012", a.bpx),
   (str2b "14.013", a.fgp),
   (str2b "14.021", .str (joinRS (a.fingers.map FingerMeta.pos))),
   (str2b "14.023", .str (joinRS (a.fingers.map FingerMeta.score))),
   (str2b "14.024", .str (joinRS (a.fingers.map FingerMeta.score)))]

theorem type14GetDict_split (a : Type14Attrs) (l : PyVal) :
    type14GetDict a l = type14Front a l ++ [(str2b "14.999", .bytes a.dat)] := rfl

theorem flatGS_length_ge (es : List (List Nat × PyVal)) : es.length ≤ (flatGS es).length := by
  induction es with
  | nil => simp [flatGS]
  | cons e t ih =>
    rw [show flatGS (e :: t) = e.1 ++ [colonB] ++ valBytes e.2 ++ [gsB] ++ flatGS t from rfl]
    simp only [List.length_append, List.length_cons, List.length_nil]
    omega

/-- C2: a serialized Type-14 record whose image payload is an arbitrary
byte string — possibly containing the separator bytes 0x1C, 0x1D, 0x1E,
0x1F — parses back with exactly that byte string as the value of
`14.999`: the parser takes the remainder of the record minus the
terminating FS, and GS bytes inside the image are not treated as field
delimiters.  The hypotheses say the textual (non-image) field values are
free of `GS`, which every field the encoder emits satisfies. -/
theorem c2_image_payload_roundtrip (a : Type14Attrs)
    (h02 : noGS a.idc) (h03 : noGS a.imp) (h04 : noGS a.src) (h05 : noGS a.date)
    (h06 : noGS a.hll) (h07 : noGS a.vll) (h08 : noGS a.scu) (h09 : noGS a.thps)
    (h10 : noGS a.tvps) (h11 : noGS a.cga) (h12 : noGS a.bpx) (h13 : noGS a.fgp)
    (hfm : ∀ fm ∈ a.fingers, (∀ b ∈ fm.pos, b ≠ gsB) ∧ (∀ b ∈ fm.score, b ≠ gsB)) :
    (parseRecord (type14Repr a)).lookup (str2b "14.999") = some (.bytes a.dat) := by
  have hpos : ∀ b ∈ joinRS (a.fingers.map FingerMeta.pos), b ≠ gsB := by
    apply joinRS_noGS
    intro s hs
    obtain ⟨fm, hfm2, hfe⟩ := List.mem_map.mp hs
    rw [← hfe]
    exact (hfm fm hfm2).1
  have hscore : ∀ b ∈ joinRS (a.fingers.map FingerMeta.score), b ≠ gsB := by
    apply joinRS_noGS
    intro s hs
    obtain ⟨fm, hfm2, hfe⟩ := List.mem_map.mp hs
    rw [← hfe]
    exact (hfm fm hfm2).2
  obtain ⟨L, hLdig, hLgs, hrepr⟩ :
      ∃ L, (∀ b ∈ valBytes L, 48 ≤ b ∧ b ≤ 57) ∧ noGS L ∧
        type14Repr a = flatGS (type14Front a L) ++
          (entryBytes (str2b "14.999") (.bytes a.dat) ++ [fsB]) :=
    ⟨getLen (type14GetDict a), valBytes_getLen_digits _, noGS_getLen _, by
      rw [type14Repr, reprTagged, joinDict, type14_sorted, type14GetDict_split,
        emitEntries_concat]⟩
  have hdata : type14Repr a =
      (str2b "14.001" ++ [colonB] ++ valBytes L) ++
        gsB :: (flatGS ((type14Front a L).tail) ++
          (entryBytes (str2b "14.999") (.bytes a.dat) ++ [fsB])) := by
    rw [hrepr]
    rw [show flatGS (type14Front a L) =
        str2b "14.001" ++ [colonB] ++ valBytes L ++ [gsB] ++
          flatGS ((type14Front a L).tail) from rfl]
    simp [List.append_assoc]
  have hnotpre : gsB ∉ str2b "14.001" ++ [colonB] ++ valBytes L := by
    intro hx
    simp only [List.append_assoc, List.mem_append, List.mem_cons, List.not_mem_nil,
      or_false] at hx
    rcases hx with hx | hx | hx
    · revert hx; decide
    · revert hx; decide
    · have h1 := hLdig gsB hx
      have h2 : gsB = 29 := rfl
      omega
  have hfind : pyFind gsB (type14Repr a) =
      some (str2b "14.001" ++ [colonB] ++ valBytes L).length := by
    rw [hdata]
    exact pyFind_first hnotpre
  have htake : (type14Repr a).take (str2b "14.001" ++ [colonB] ++ valBytes L).length =
      str2b "14.001" ++ [colonB] ++ valBytes L := by
    rw [hdata]
    exact List.take_left _ _
  have hascii : asciiIgnore (str2b "14.001" ++ [colonB] ++ valBytes L) =
      str2b "14.001" ++ [colonB] ++ valBytes L := by
    unfold asciiIgnore
    rw [List.filter_eq_self]
    intro b hb
    simp only [List.append_assoc, List.mem_append, List.mem_cons, List.not_mem_nil,
      or_false] at hb
    simp only [decide_eq_true_eq]
    rcases hb with hb | hb | hb
    · exact (by decide : ∀ x ∈ str2b "14.001", x < 128) b hb
    · subst hb; decide
    · have h1 := hLdig b hb
      omega
  have hrt : (str2b "14.001" ++ [colonB] ++ valBytes L).takeWhile
      (fun b => b ≠ dotB) = str2b "14" := rfl
  have hstrip : stripFS (type14Repr a) =
      flatGS (type14Front a L) ++ (str2b "14.999" ++ [colonB] ++ a.dat) := by
    rw [hrepr, stripFS]
    rw [show flatGS (type14Front a L) ++
          (entryBytes (str2b "14.999") (.bytes a.dat) ++ [fsB]) =
        (flatGS (type14Front a L) ++ entryBytes (str2b "14.999") (.bytes a.dat)) ++ [fsB]
      from by simp [List.append_assoc]]
    rw [List.getLast?_concat, if_pos rfl, List.dropLast_concat]
    simp [entryBytes, valBytes, List.append_assoc]
  have hpr : parseRecord (type14Repr a) =
      binWalk (stripFS (type14Repr a)) ((stripFS (type14Repr a)).length + 1) 0 [] := by
    unfold parseRecord
    simp only [hfind, htake, hascii, hrt]
    rw [if_pos (by decide : str2b "14" ∈ [str2b "4", str2b "7", str2b "8", str2b "10",
      str2b "13", str2b "14", str2b "15", str2b "16", str2b "17"])]
  have hgood : ∀ e ∈ type14Front a L, GoodEntry e := by
    intro e he
    simp only [type14Front, List.mem_cons, List.not_mem_nil, or_false] at he
    rcases he with rfl | rfl | rfl | rfl | rfl | rfl | rfl | rfl | rfl | rfl | rfl | rfl |
      rfl | rfl | rfl | rfl
    · exact ⟨⟨str2b "001",
        (by decide : validTag? (str2b "14.001") = some (str2b "001")),
        by decide⟩,
        (by decide : colonB ∉ str2b "14.001"),
        (by decide : gsB ∉ str2b "14.001"), hLgs⟩
    · exact ⟨⟨str2b "002",
        (by decide : validTag? (str2b "14.002") = some (str2b "002")),
        by decide⟩,
        (by decide : colonB ∉ str2b "14.002"),
        (by decide : gsB ∉ str2b "14.002"), h02⟩
    · exact ⟨⟨str2b "003",
        (by decide : validTag? (str2b "14.003") = some (str2b "003")),
        by decide⟩,
        (by decide : colonB ∉ str2b "14.003"),
        (by decide : gsB ∉ str2b "14.003"), h03⟩
    · exact ⟨⟨str2b "004",
        (by decide : validTag? (str2b "14.004") = some (str2b "004")),
        by decide⟩,
        (by decide : colonB ∉ str2b "14.004"),
        (by decide : gsB ∉ str2b "14.004"), h04⟩
    · exact ⟨⟨str2b "005",
        (by decide : validTag? (str2b "14.005") = some (str2b "005")),
        by decide⟩,
        (by decide : colonB ∉ str2b "14.005"),
        (by decide : gsB ∉ str2b "14.005"), h05⟩
    · exact ⟨⟨str2b "006",
        (by decide : validTag? (str2b "14.006") = some (str2b "006")),
        by decide⟩,
        (by decide : colonB ∉ str2b "14.006"),
        (by decide : gsB ∉ str2b "14.006"), h06⟩
    · exact ⟨⟨str2b "007",
        (by decide : validTag? (str2b "14.007") = some (str2b "007")),
        by decide⟩,
        (by decide : colonB ∉ str2b "14.007"),
        (by decide : gsB ∉ str2b "14.007"), h07⟩
    · exact ⟨⟨str2b "008",
        (by decide : validTag? (str2b "14.008") = some (str2b "008")),
        by decide⟩,
        (by decide : colonB ∉ str2b "14.008"),
        (by decide : gsB ∉ str2b "14.008"), h08⟩
    · exact ⟨⟨str2b "009",
        (by decide : validTag? (str2b "14.009") = some (str2b "009")),
        by decide⟩,
        (by decide : colonB ∉ str2b "14.009"),
        (by decide : gsB ∉ str2b "14.009"), h09⟩
    · exact ⟨⟨str2b "010",
        (by decide : validTag? (str2b "14.010") = some (str2b "010")),
        by decide⟩,
        (by decide : colonB ∉ str2b "14.010"),
        (by decide : gsB ∉ str2b "14.010"), h10⟩
    · exact ⟨⟨str2b "011",
        (by decide : validTag? (str2b "14.011") = some (str2b "011")),
        by decide⟩,
        (by decide : colonB ∉ str2b "14.011"),
        (by decide : gsB ∉ str2b "14.011"), h11⟩
    · exact ⟨⟨str2b "012",
        (by decide : validTag? (str2b "14.012") = some (str2b "012")),
        by decide⟩,
        (by decide : colonB ∉ str2b "14.012"),
        (by decide : gsB ∉ str2b "14.012"), h12⟩
    · exact ⟨⟨str2b "013",
        (by decide : validTag? (str2b "14.013") = some (str2b "013")),
        by decide⟩,
        (by decide : colonB ∉ str2b "14.013"),
        (by decide : gsB ∉ str2b "14.013"), h13⟩
    · exact ⟨⟨str2b "021",
        (by decide : validTag? (str2b "14.021") = some (str2b "021")),
        by decide⟩,
        (by decide : colonB ∉ str2b "14.021"),
        (by decide : gsB ∉ str2b "14.021"), hpos⟩
    · exact ⟨⟨str2b "023",
        (by decide : validTag? (str2b "14.023") = some (str2b "023")),
        by decide⟩,
        (by decide : colonB ∉ str2b "14.023"),
        (by decide : gsB ∉ str2b "14.023"), hscore⟩
    · exact ⟨⟨str2b "024",
        (by decide : validTag? (str2b "14.024") = some (str2b "024")),
        by decide⟩,
        (by decide : colonB ∉ str2b "14.024"),
        (by decide : gsB ∉ str2b "14.024"), hscore⟩
  have h16 : (type14Front a L).length = 16 := rfl
  have hlen : (type14Front a L).length + 1 ≤
      (flatGS (type14Front a L) ++ (str2b "14.999" ++ [colonB] ++ a.dat)).length + 1 := by
    have h1 := flatGS_length_ge (type14Front a L)
    simp only [List.length_append]
    omega
  have hbw := binWalk_spec (str2b "14.999") a.dat (by decide) (by decide)
    (type14Front a L) []
    ((flatGS (type14Front a L) ++ (str2b "14.999" ++ [colonB] ++ a.dat)).length + 1)
    [] hgood hlen
  simp only [List.nil_append, List.length_nil] at hbw
  rw [hpr, hstrip, hbw]
  exact lookup_updKey_self _ _ _


/-- A concrete Type-14 record whose image payload contains all four EFT
separator bytes (`FS GS RS US`) plus a `0xFF`, a `0x00` and a colon. -/
def sampleType14C2 : Type14Attrs :=
  { idc := .int 1, imp := .str (str2b "1"), src := .str oriB,
    date := .str (str2b "20250114"), hll := .str (str2b "1600"),
    vll := .str (str2b "1000"), scu := .str (str2b "1"),
    thps := .str (str2b "500"), tvps := .str (str2b "500"),
    cga := .str (str2b "WSQ20"), bpx := .str (str2b "8"),
    fgp := .str (str2b "13"),
    fingers := [⟨str2b "13", str2b "254"⟩],
    dat := [28, 29, 30, 31, 255, 0, 58] }

theorem c2_image_payload_roundtrip_witness :
    (parseRecord (type14Repr sampleType14C2)).lookup (str2b "14.999") =
      some (.bytes [28, 29, 30, 31, 255, 0, 58]) :=
  c2_image_payload_roundtrip sampleType14C2
    (by unfold noGS; decide) (by unfold noGS; decide) (by unfold noGS; decide)
    (by unfold noGS; decide) (by unfold noGS; decide) (by unfold noGS; decide)
    (by unfold noGS; decide) (by unfold noGS; decide) (by unfold noGS; decide)
    (by unfold noGS; decide) (by unfold noGS; decide) (by unfold noGS; decide)
    (by decide)

end EFT
